import Mathlib

/-!
Verification of the local image generator (Projects/ImageGenerator.py).

The Python source is shallowly embedded below.  Machine integers are
modelled as `Nat`/`Int`; Python floats are modelled as exact rationals
(`Rat`) except for the radial-gradient distance computation, whose
square roots are modelled over the reals.  The global `random` module is
modelled as an explicit stream of naturals (`Gen`): each primitive call
(`random.choice`, `random.randint`) consumes one stream element, and
`random.choice` on a list of length `n` picks index `value % n`.
Fallible code (Python exceptions caught by the pipeline) is modelled
with `Option`.  The PIL library itself (fonts, convolution filters) is
an external collaborator and is modelled by explicit parameters.
-/

/-- One value of the pseudo-random stream together with a cursor.
Models the global `random` module: each primitive call reads
`f k` and advances the cursor. -/
structure Gen where
  f : Nat → Nat
  k : Nat

def Gen.bump (g : Gen) : Gen := ⟨g.f, g.k + 1⟩

def Gen.val (g : Gen) : Nat := g.f g.k

/-- Models `random.randint(a, b)`: an integer in `[a, b]`, both ends
inclusive. -/
def pyRandint (a b : Nat) (g : Gen) : Nat × Gen :=
  (a + g.val % (b + 1 - a), g.bump)

/-- Models `random.choice(l)` for a list known to be non-empty at every
call site (the chosen index is always reduced modulo the length). -/
def pyChoice {α : Type} [Inhabited α] (l : List α) (g : Gen) : α × Gen :=
  (l.getD (g.val % l.length) default, g.bump)

/-- Models `random.choice(l)` where the list may be empty; Python raises
`IndexError` on an empty sequence, modelled by `none`. -/
def pyChoiceOpt {α : Type} (l : List α) (g : Gen) : Option α × Gen :=
  (l.get? (g.val % l.length), g.bump)

/-- Models Python `str.strip()` (for ASCII whitespace): drop leading
and trailing whitespace characters. -/
def pyStrip (s : String) : String :=
  ⟨(((s.data.dropWhile Char.isWhitespace).reverse.dropWhile Char.isWhitespace).reverse)⟩

/-- Models Python `str.lower()` (for ASCII letters). -/
def pyLower (s : String) : String := ⟨s.data.map Char.toLower⟩

/-- Models Python `str.upper()` (for ASCII letters). -/
def pyUpper (s : String) : String := ⟨s.data.map Char.toUpper⟩

/-- Models the Python substring test `needle in hay`. -/
def pySubstr (needle hay : String) : Bool :=
  (List.range (hay.data.length + 1)).any
    (fun i => needle.data.isPrefixOf (hay.data.drop i))

/-- Accumulating splitter behind `pyWords`; the accumulator holds the
current word reversed. -/
def pyWordsAux : List Char → List Char → List String
  | [], acc => if acc = [] then [] else [⟨acc.reverse⟩]
  | c :: cs, acc =>
    if c.isWhitespace then
      if acc = [] then pyWordsAux cs [] else ⟨acc.reverse⟩ :: pyWordsAux cs []
    else pyWordsAux cs (c :: acc)

/-- Models Python `str.split()` with no argument: split on runs of
whitespace, producing no empty words. -/
def pyWords (s : String) : List String := pyWordsAux s.data []

/-- Models Python `sep.join(parts)`. -/
def pyJoin (sep : String) : List String → String
  | [] => ""
  | [w] => w
  | w :: ws => w ++ sep ++ pyJoin sep ws

/-- Value of a single hexadecimal digit, as accepted by `int(_, 16)`. -/
def hexVal (c : Char) : Option Nat :=
  if '0' ≤ c ∧ c ≤ '9' then some (c.toNat - 48)
  else if 'a' ≤ c ∧ c ≤ 'f' then some (c.toNat - 87)
  else if 'A' ≤ c ∧ c ≤ 'F' then some (c.toNat - 55)
  else none

/-- The character slice `s[i:j]` of a Python string. -/
def pySlice (s : String) (i j : Nat) : List Char :=
  (s.data.drop i).take (j - i)

/-- Models `int(cs, 16)` on slices of length at most two; the empty
slice raises `ValueError` (`none`). -/
def hexNum : List Char → Option Nat
  | [] => none
  | [c] => hexVal c
  | [c, d] => do pure (16 * (← hexVal c) + (← hexVal d))
  | _ => none

/-- Models the hex-triple parse
`int(color[1:3], 16), int(color[3:5], 16), int(color[5:7], 16)`
performed by `blend_colors` and the geometric branch. -/
def hexToRGB (s : String) : Option (Int × Int × Int) := do
  let r ← hexNum (pySlice s 1 3)
  let g ← hexNum (pySlice s 3 5)
  let b ← hexNum (pySlice s 5 7)
  pure ((r : Int), (g : Int), (b : Int))

/-- Models Python `int(x)` on a rational: truncation toward zero. -/
def pyint (q : ℚ) : ℤ := if q < 0 then -⌊-q⌋ else ⌊q⌋

/-- One channel of `blend_colors`: `int(c1 + (c2 - c1) * ratio)`. -/
def blendChan (a b : ℤ) (q : ℚ) : ℤ :=
  pyint ((a : ℚ) + ((b : ℚ) - (a : ℚ)) * q)

/-- The blended triple of `blend_colors` on already-parsed channels. -/
def blendRGB (t1 t2 : ℤ × ℤ × ℤ) (q : ℚ) : ℤ × ℤ × ℤ :=
  (blendChan t1.1 t2.1 q, blendChan t1.2.1 t2.2.1 q, blendChan t1.2.2 t2.2.2 q)

/-- Models `LocalImageGenerator.blend_colors`: parse the two hex colors
and blend each channel with truncation to integer. -/
def blend_colors (c1 c2 : String) (ratio : ℚ) : Option (ℤ × ℤ × ℤ) :=
  match hexToRGB c1, hexToRGB c2 with
  | some t1, some t2 => some (blendRGB t1 t2 ratio)
  | _, _ => none

/-- The `self.color_themes` dictionary, in insertion order. -/
def colorThemes : List (String × List String) :=
  [("nature", ["#228B22", "#32CD32", "#90EE90", "#006400", "#8FBC8F"]),
   ("ocean", ["#006994", "#4682B4", "#87CEEB", "#1E90FF", "#00CED1"]),
   ("sunset", ["#FF6347", "#FF8C00", "#FFD700", "#FF69B4", "#DC143C"]),
   ("space", ["#191970", "#4B0082", "#8B008B", "#9400D3", "#000080"]),
   ("forest", ["#228B22", "#006400", "#8B4513", "#2E8B57", "#556B2F"]),
   ("city", ["#696969", "#2F4F4F", "#708090", "#778899", "#A9A9A9"]),
   ("fire", ["#FF4500", "#FF6347", "#FF8C00", "#FFD700", "#DC143C"]),
   ("ice", ["#B0E0E6", "#87CEEB", "#ADD8E6", "#E0FFFF", "#F0F8FF"]),
   ("magic", ["#9370DB", "#BA55D3", "#DA70D6", "#EE82EE", "#DDA0DD"]),
   ("retro", ["#FF1493", "#00FFFF", "#FFFF00", "#FF69B4", "#00FF00"])]

/-- The `theme_keywords` dictionary of `detect_theme`, in insertion
order. -/
def themeKeywords : List (String × List String) :=
  [("nature", ["tree", "grass", "plant", "garden", "nature", "leaf"]),
   ("ocean", ["ocean", "sea", "water", "wave", "beach", "blue"]),
   ("sunset", ["sunset", "dawn", "orange", "warm", "golden"]),
   ("space", ["space", "star", "galaxy", "cosmic", "universe", "nebula"]),
   ("forest", ["forest", "wood", "jungle", "tree", "green"]),
   ("city", ["city", "urban", "building", "street", "skyscraper"]),
   ("fire", ["fire", "flame", "hot", "red", "burning"]),
   ("ice", ["ice", "cold", "frozen", "winter", "snow"]),
   ("magic", ["magic", "mystical", "fantasy", "enchanted", "wizard"]),
   ("retro", ["retro", "neon", "cyberpunk", "80s", "synthwave"])]

def themeNames : List String := colorThemes.map Prod.fst

/-- `self.color_themes[theme]`. -/
def paletteOf (t : String) : List String :=
  ((colorThemes.find? (fun x => x.1 = t)).map Prod.snd).getD []

/-- Keyword list of a theme in `theme_keywords`. -/
def keywordsOf (t : String) : List String :=
  ((themeKeywords.find? (fun x => x.1 = t)).map Prod.snd).getD []

/-- One comparison step of Python `max(items, key=value)`: the running
best is replaced only on a strictly greater value, so the first
maximal element wins ties. -/
def pyMaxStep {α : Type} (b y : α × Nat) : α × Nat := if b.2 < y.2 then y else b

/-- Models Python `max(items, key=value)` over an association list:
the first pair attaining the maximal value wins ties; `none` on an
empty list (Python raises `ValueError` there). -/
def pyMax? {α : Type} : List (α × Nat) → Option (α × Nat)
  | [] => none
  | x :: xs => some (xs.foldl pyMaxStep x)

/-- The per-theme keyword scores of `detect_theme`:
`sum(1 for keyword in keywords if keyword in prompt_lower)`, in
catalog order. -/
def themeScores (p : String) : List (String × Nat) :=
  themeKeywords.map (fun tk => (tk.1, tk.2.countP (fun kw => pySubstr kw (pyLower p))))

/-- Models `LocalImageGenerator.detect_theme`: keep the positive
scores, return the first theme attaining the maximal score, and fall
back to a random theme when every score is zero. -/
def detectTheme (g : Gen) (p : String) : String × Gen :=
  match pyMax? ((themeScores p).filter (fun x => 0 < x.2)) with
  | some m => (m.1, g)
  | none => pyChoice themeNames g

/-- An RGB pixel (channel values as produced by the Python code). -/
abbrev Pix := ℤ × ℤ × ℤ

/-- An RGBA overlay pixel `(r, g, b, alpha)`. -/
abbrev PixA := ℤ × ℤ × ℤ × ℤ

/-- A raster image: dimensions plus a pixel map. -/
structure Raster where
  width : ℕ
  height : ℕ
  pix : ℕ → ℕ → Pix

/-- Models `Image.new("RGB", (w, h), c)`: a uniform canvas (`PIL`
defaults to black when no color is given). -/
def uniformRaster (w h : ℕ) (c : Pix) : Raster := ⟨w, h, fun _ _ => c⟩

/-- Models `draw.line([(x, 0), (x, height)], fill=c)`: a full pixel
column of the canvas. -/
def drawVLine (img : Raster) (x : ℕ) (c : Pix) : Raster :=
  { img with pix := fun a b => if a = x then c else img.pix a b }

/-- Models `draw.line([(0, y), (width, y)], fill=c)`: a full pixel row
of the canvas. -/
def drawHLine (img : Raster) (y : ℕ) (c : Pix) : Raster :=
  { img with pix := fun a b => if b = y then c else img.pix a b }

/-- Models `draw.point((x, y), fill=c)`. -/
def drawPoint (img : Raster) (x y : ℕ) (c : Pix) : Raster :=
  { img with pix := fun a b => if a = x ∧ b = y then c else img.pix a b }

def gradientKinds : List String := ["horizontal", "vertical", "diagonal", "radial"]

/-- The horizontal-gradient loop: one column per `x in range(width)`
with ratio `x / width`. -/
def horizontalRaster (w h : ℕ) (t0 t1 : Pix) : Raster :=
  (List.range w).foldl
    (fun im x => drawVLine im x (blendRGB t0 t1 ((x : ℚ) / (w : ℚ))))
    (uniformRaster w h (0, 0, 0))

/-- The vertical-gradient loop: one row per `y in range(height)` with
ratio `y / height`. -/
def verticalRaster (w h : ℕ) (t0 t1 : Pix) : Raster :=
  (List.range h).foldl
    (fun im y => drawHLine im y (blendRGB t0 t1 ((y : ℚ) / (h : ℚ))))
    (uniformRaster w h (0, 0, 0))

/-- The diagonal-gradient double loop: one point per pixel with ratio
`(x + y) / (width + height)`. -/
def diagonalRaster (w h : ℕ) (t0 t1 : Pix) : Raster :=
  (List.range h).foldl
    (fun im y =>
      (List.range w).foldl
        (fun im2 x =>
          drawPoint im2 x y (blendRGB t0 t1 (((x : ℚ) + (y : ℚ)) / ((w : ℚ) + (h : ℚ)))))
        im)
    (uniformRaster w h (0, 0, 0))

/-- Models Python `int(x)` on a real: truncation toward zero. -/
noncomputable def pyintR (x : ℝ) : ℤ := if x < 0 then -⌊-x⌋ else ⌊x⌋

/-- One blended channel of `blend_colors` when the ratio is a real
number (radial kind). -/
noncomputable def blendChanR (a b : ℤ) (r : ℝ) : ℤ :=
  pyintR ((a : ℝ) + ((b : ℝ) - (a : ℝ)) * r)

/-- The blended triple of `blend_colors` on a real ratio. -/
noncomputable def blendRGBR (t1 t2 : Pix) (r : ℝ) : Pix :=
  (blendChanR t1.1 t2.1 r, blendChanR t1.2.1 t2.2.1 r, blendChanR t1.2.2 t2.2.2 r)

/-- The radial ratio `min(distance / max_distance, 1.0)` with
`center = (width // 2, height // 2)`. -/
noncomputable def radialRatio (w h x y : ℕ) : ℝ :=
  min (Real.sqrt (((x : ℝ) - (w / 2 : ℕ)) ^ 2 + ((y : ℝ) - (h / 2 : ℕ)) ^ 2)
        / Real.sqrt (((w / 2 : ℕ) : ℝ) ^ 2 + ((h / 2 : ℕ) : ℝ) ^ 2)) 1

/-- The radial-gradient double loop. -/
noncomputable def radialRaster (w h : ℕ) (t0 t1 : Pix) : Raster :=
  (List.range h).foldl
    (fun im y =>
      (List.range w).foldl
        (fun im2 x => drawPoint im2 x y (blendRGBR t0 t1 (radialRatio w h x y)))
        im)
    (uniformRaster w h (0, 0, 0))

/-- Models `LocalImageGenerator.generate_gradient_background`.  The two
hex colors are parsed once up front (for `w, h > 0` every kind parses
them at its first pixel, with the same failure behavior).  When the
radial kind is chosen and `width // 2` and `height // 2` are both zero,
`distance / max_distance` raises `ZeroDivisionError` at the first
pixel, modelled by `none`. -/
noncomputable def generate_gradient_background (w h : ℕ) (c0 c1 : String) (g : Gen) :
    Option Raster × Gen :=
  match hexToRGB c0, hexToRGB c1 with
  | some t0, some t1 =>
    let kg := pyChoice gradientKinds g
    if kg.1 = "horizontal" then (some (horizontalRaster w h t0 t1), kg.2)
    else if kg.1 = "vertical" then (some (verticalRaster w h t0 t1), kg.2)
    else if kg.1 = "diagonal" then (some (diagonalRaster w h t0 t1), kg.2)
    else if w / 2 = 0 ∧ h / 2 = 0 then (none, kg.2)
    else (some (radialRaster w h t0 t1), kg.2)
  | _, _ => (none, g)

/-- Alpha-composite one overlay channel over an opaque background
channel and flatten: `(src * a + dst * (255 - a)) / 255`. -/
def compositeChan (d s a : ℤ) : ℤ := (s * a + d * (255 - a)) / 255

/-- An RGBA overlay as a pixel map. -/
abbrev Overlay := ℕ → ℕ → PixA

/-- The fresh overlay `Image.new("RGBA", (w, h), (0, 0, 0, 0))`. -/
def transparentOverlay : Overlay := fun _ _ => (0, 0, 0, 0)

def compositePix (d : Pix) (s : PixA) : Pix :=
  (compositeChan d.1 s.1 s.2.2.2, compositeChan d.2.1 s.2.1 s.2.2.2,
    compositeChan d.2.2 s.2.2.1 s.2.2.2)

/-- Models
`Image.alpha_composite(image.convert("RGBA"), overlay).convert("RGB")`. -/
def compositeOver (img : Raster) (ov : Overlay) : Raster :=
  { img with pix := fun x y => compositePix (img.pix x y) (ov x y) }

/-- An overlay that holds one shape: the masked region filled with a
single semi-transparent color, fully transparent elsewhere. -/
def maskOverlay (mask : ℕ → ℕ → Bool) (rgb : Pix) (alpha : ℕ) : Overlay :=
  fun x y => if mask x y then (rgb.1, rgb.2.1, rgb.2.2, (alpha : ℤ)) else (0, 0, 0, 0)

/-- Membership in the filled circle
`ellipse([x - radius, y - radius, x + radius, y + radius])` (idealized
disc rasterization). -/
def circleMask (x0 y0 rad : ℕ) : ℕ → ℕ → Bool :=
  fun x y => ((x : ℤ) - (x0 : ℤ)) ^ 2 + ((y : ℤ) - (y0 : ℤ)) ^ 2 ≤ (rad : ℤ) ^ 2

/-- Filled-rectangle membership for `rectangle([x1, y1, x2, y2])`. -/
def rectMask (x1 y1 x2 y2 x y : ℕ) : Bool := x1 ≤ x ∧ x ≤ x2 ∧ y1 ≤ y ∧ y ≤ y2

/-- The overlay holding one semi-transparent filled circle. -/
def circleOverlay (x0 y0 rad : ℕ) (rgb : Pix) (alpha : ℕ) : Overlay :=
  maskOverlay (circleMask x0 y0 rad) rgb alpha

/-- The overlay holding one semi-transparent filled axis-parallel
rectangle. -/
def rectOverlay (x1 y1 x2 y2 : ℕ) (rgb : Pix) (alpha : ℕ) : Overlay :=
  maskOverlay (fun x y => rectMask x1 y1 x2 y2 x y) rgb alpha

def patternKinds : List String := ["circles", "rectangles", "triangles", "lines"]

/-- One loop iteration of `add_geometric_patterns`: pick a color and an
alpha, create a transparent overlay, draw the one shape of the chosen
pattern kind onto it (no drawing rule exists for `triangles` and
`lines`, so their overlay stays fully transparent).  `none` models the
exceptions Python raises here: `random.choice` on an empty color list
and `int(_, 16)` on an unparsable color. -/
def gpIteration (kind : String) (colors : List String) (w h : ℕ) (g : Gen) :
    Option Overlay × Gen :=
  match pyChoiceOpt colors g with
  | (none, g) => (none, g)
  | (some c, g) =>
    let ag := pyRandint 50 150 g
    let alpha := ag.1
    let g := ag.2
    if kind = "circles" then
      let xg := pyRandint 0 w g
      let yg := pyRandint 0 h xg.2
      let rg := pyRandint 20 100 yg.2
      match hexToRGB c with
      | none => (none, rg.2)
      | some rgb => (some (circleOverlay xg.1 yg.1 rg.1 rgb alpha), rg.2)
    else if kind = "rectangles" then
      let x1g := pyRandint 0 (w / 2) g
      let y1g := pyRandint 0 (h / 2) x1g.2
      let x2g := pyRandint x1g.1 w y1g.2
      let y2g := pyRandint y1g.1 h x2g.2
      match hexToRGB c with
      | none => (none, y2g.2)
      | some rgb => (some (rectOverlay x1g.1 y1g.1 x2g.1 y2g.1 rgb alpha), y2g.2)
    else (some transparentOverlay, g)

/-- The `for _ in range(num_shapes)` loop of `add_geometric_patterns`,
compositing one overlay per iteration onto the accumulating image. -/
def gpLoop (kind : String) (colors : List String) (w h : ℕ) :
    ℕ → Raster → Gen → Option Raster × Gen
  | 0, img, g => (some img, g)
  | n + 1, img, g =>
    match gpIteration kind colors w h g with
    | (none, g) => (none, g)
    | (some ov, g) => gpLoop kind colors w h n (compositeOver img ov) g

/-- Models `LocalImageGenerator.add_geometric_patterns`. -/
def add_geometric_patterns (img : Raster) (colors : List String) (g : Gen) :
    Option Raster × Gen :=
  let kg := pyChoice patternKinds g
  let ng := pyRandint 5 15 kg.2
  gpLoop kg.1 colors img.width img.height ng.1 img ng.2

/-- The list of overlays composited by the `add_geometric_patterns`
loop: its shape trace, consuming the random stream exactly as the loop
does. -/
def gpTrace (kind : String) (colors : List String) (w h : ℕ) :
    ℕ → Gen → Option (List Overlay) × Gen
  | 0, g => (some [], g)
  | n + 1, g =>
    match gpIteration kind colors w h g with
    | (none, g) => (none, g)
    | (some ov, g) =>
      match gpTrace kind colors w h n g with
      | (none, g) => (none, g)
      | (some ovs, g) => (some (ov :: ovs), g)

def abstractShapes : List String := ["ellipse", "rectangle", "polygon"]

/-- Filled-ellipse membership for `draw.ellipse([x1, y1, x2, y2])`
(idealized rasterization of the inscribed ellipse). -/
def ellipseMask (x1 y1 x2 y2 x y : ℕ) : Bool :=
  (2 * (x : ℤ) - ((x1 : ℤ) + (x2 : ℤ))) ^ 2 * ((y2 : ℤ) - (y1 : ℤ)) ^ 2
      + (2 * (y : ℤ) - ((y1 : ℤ) + (y2 : ℤ))) ^ 2 * ((x2 : ℤ) - (x1 : ℤ)) ^ 2
    ≤ ((x2 : ℤ) - (x1 : ℤ)) ^ 2 * ((y2 : ℤ) - (y1 : ℤ)) ^ 2

/-- Even-odd crossing test of one polygon edge against the horizontal
ray left of `(x, y)` (idealized polygon rasterization). -/
def edgeCross (a b : ℤ × ℤ) (x y : ℤ) : Bool :=
  (decide (a.2 ≤ y) != decide (b.2 ≤ y)) &&
    (if a.2 ≤ b.2 then (x - a.1) * (b.2 - a.2) < (y - a.2) * (b.1 - a.1)
     else (x - a.1) * (b.2 - a.2) > (y - a.2) * (b.1 - a.1))

/-- Even-odd membership for `draw.polygon(points)`. -/
def polygonMask (pts : List (ℕ × ℕ)) (x y : ℕ) : Bool :=
  ((pts.zip (pts.rotate 1)).countP
      (fun e => edgeCross ((e.1.1 : ℤ), (e.1.2 : ℤ)) ((e.2.1 : ℤ), (e.2.2 : ℤ)) x y)) % 2 = 1

/-- Opaque fill of the masked region with a solid color. -/
def fillMask (img : Raster) (mask : ℕ → ℕ → Bool) (c : Pix) : Raster :=
  { img with pix := fun x y => if mask x y then c else img.pix x y }

/-- The `points` collection loop of the polygon branch of
`create_abstract_art`. -/
def caPoints (w h : ℕ) : ℕ → Gen → List (ℕ × ℕ) × Gen
  | 0, g => ([], g)
  | n + 1, g =>
    let xg := pyRandint 0 w g
    let yg := pyRandint 0 h xg.2
    let pg := caPoints w h n yg.2
    ((xg.1, yg.1) :: pg.1, pg.2)

/-- One loop iteration of `create_abstract_art`: choose a shape kind
and an opaque fill color, then draw it.  The fill color is parsed by
PIL at draw time; an unparsable color raises there (`none`; on that
path the exact stream position after the exception is irrelevant, the
pipeline aborts). -/
def caIteration (colors : List String) (w h : ℕ) (g : Gen) :
    Option (Raster → Raster) × Gen :=
  let sg := pyChoice abstractShapes g
  match pyChoiceOpt colors sg.2 with
  | (none, g) => (none, g)
  | (some c, g) =>
    match hexToRGB c with
    | none => (none, g)
    | some rgb =>
      if sg.1 = "ellipse" then
        let x1g := pyRandint 0 (w / 2) g
        let y1g := pyRandint 0 (h / 2) x1g.2
        let x2g := pyRandint x1g.1 w y1g.2
        let y2g := pyRandint y1g.1 h x2g.2
        (some (fun img => fillMask img (ellipseMask x1g.1 y1g.1 x2g.1 y2g.1) rgb), y2g.2)
      else if sg.1 = "rectangle" then
        let x1g := pyRandint 0 (w / 2) g
        let y1g := pyRandint 0 (h / 2) x1g.2
        let x2g := pyRandint x1g.1 w y1g.2
        let y2g := pyRandint y1g.1 h x2g.2
        (some (fun img => fillMask img (rectMask x1g.1 y1g.1 x2g.1 y2g.1) rgb), y2g.2)
      else
        let ng := pyRandint 3 6 g
        let pg := caPoints w h ng.1 ng.2
        (some (fun img => fillMask img (polygonMask pg.1) rgb), pg.2)

/-- The `for _ in range(num_shapes)` loop of `create_abstract_art`. -/
def caLoop (colors : List String) (w h : ℕ) : ℕ → Raster → Gen → Option Raster × Gen
  | 0, img, g => (some img, g)
  | n + 1, img, g =>
    match caIteration colors w h g with
    | (none, g) => (none, g)
    | (some f, g) => caLoop colors w h n (f img) g

/-- Models `LocalImageGenerator.create_abstract_art`: an opaque white
canvas with 10 to 25 opaque shapes painted over it. -/
def create_abstract_art (w h : ℕ) (colors : List String) (g : Gen) :
    Option Raster × Gen :=
  let ng := pyRandint 10 25 g
  caLoop colors w h ng.1 (uniformRaster w h (255, 255, 255)) ng.2

/-- External font model (PIL `ImageFont` and `ImageDraw.text`, an
external collaborator with a guaranteed fallback): the caption metrics
coming from `draw.textbbox` and the glyph mask of a caption drawn at an
anchor point. -/
structure FontModel where
  tw : String → ℕ
  th : String → ℕ
  mask : String → ℤ → ℤ → ℕ → ℕ → Bool

/-- The caption `" ".join(prompt.split()[:3]).upper()` drawn by
`add_text_overlay`. -/
def displayText (p : String) : String := pyUpper (pyJoin " " ((pyWords p).take 3))

/-- Models `draw.text((ax, ay), text, fill=c)` under a font model. -/
def drawText (fm : FontModel) (img : Raster) (ax ay : ℤ) (text : String) (c : Pix) :
    Raster :=
  { img with pix := fun x y => if fm.mask text ax ay x y then c else img.pix x y }

/-- Models `LocalImageGenerator.add_text_overlay`: compute the caption,
pick one of the four anchor positions, draw the black shadow offset by
(3, 3), then the white caption. -/
def add_text_overlay (fm : FontModel) (img : Raster) (p : String) (g : Gen) :
    Raster × Gen :=
  let disp := displayText p
  let tw := (fm.tw disp : ℤ)
  let th := (fm.th disp : ℤ)
  let w := (img.width : ℤ)
  let h := (img.height : ℤ)
  let positions : List (ℤ × ℤ) :=
    [(w / 2 - tw / 2, 50), (w / 2 - tw / 2, h - th - 50),
     (50, h / 2 - th / 2), (w - tw - 50, h / 2 - th / 2)]
  let pg := pyChoice positions g
  let img1 := drawText fm img (pg.1.1 + 3) (pg.1.2 + 3) disp (0, 0, 0)
  (drawText fm img1 pg.1.1 pg.1.2 disp (255, 255, 255), pg.2)

def effectNames : List String := ["blur", "sharpen", "emboss", "edge_enhance", "smooth"]

/-- Models `LocalImageGenerator.apply_artistic_effects` over an
external filter model for the five PIL convolution filters. -/
def apply_artistic_effects (flt : String → Raster → Raster) (img : Raster) (g : Gen) :
    Raster × Gen :=
  let eg := pyChoice effectNames g
  (flt eg.1 img, eg.2)

def styleNames : List String := ["gradient", "abstract", "geometric"]

/-- The `if style == ... / elif ...` dispatch of `generate_image` that
produces the base image: gradient uses the first two palette colors,
abstract the full palette, geometric a solid `palette[0]` background
with overlay shapes colored from `palette[1:]`.  An unrecognized style
leaves `image` unbound in Python (`UnboundLocalError`, caught at the
pipeline boundary), modelled by `none`. -/
noncomputable def baseImage (style : String) (colors : List String)
    (width height : ℕ) (g : Gen) : Option Raster × Gen :=
  if style = "gradient" then
    generate_gradient_background width height (colors.getD 0 "") (colors.getD 1 "") g
  else if style = "abstract" then create_abstract_art width height colors g
  else if style = "geometric" then
    match hexToRGB (colors.getD 0 "") with
    | none => (none, g)
    | some c0 => add_geometric_patterns (uniformRaster width height c0) (colors.drop 1) g
  else (none, g)

/-- Models `LocalImageGenerator.generate_image` up to the final file
write (an external collaborator).  The success value is the produced
raster together with the detected theme and the resolved style; `none`
models every `None` return: the empty-prompt early exit and any
exception caught at the pipeline boundary. -/
noncomputable def generate_image (fm : FontModel) (flt : String → Raster → Raster)
    (prompt : String) (width height : ℕ) (style : String) (g : Gen) :
    Option (Raster × String × String) × Gen :=
  if pyStrip prompt = "" then (none, g)
  else
    let p := pyStrip prompt
    let tg := detectTheme g p
    let theme := tg.1
    let colors := paletteOf theme
    let sg := if style = "auto" then pyChoice styleNames tg.2 else (style, tg.2)
    let st := sg.1
    match baseImage st colors width height sg.2 with
    | (none, g) => (none, g)
    | (some img, g) =>
      let og := add_text_overlay fm img p g
      let eg := apply_artistic_effects flt og.1 og.2
      (some (eg.1, theme, st), eg.2)

/-- Models `LocalImageGenerator.batch_generate`: one pipeline run per
prompt in order, collecting one result each; the shared options
`w h style` model the `**kwargs`. -/
noncomputable def batch_generate (fm : FontModel) (flt : String → Raster → Raster)
    (prompts : List String) (w h : ℕ) (style : String) (g : Gen) :
    List (Option (Raster × String × String)) × Gen :=
  match prompts with
  | [] => ([], g)
  | p :: ps =>
    let rg := generate_image fm flt p w h style g
    let rest := batch_generate fm flt ps w h style rg.2
    (rg.1 :: rest.1, rest.2)

/-- The success tally printed by `batch_generate`:
`sum(1 for r in results if r is not None)` out of `len(prompts)`. -/
def batchTally (results : List (Option (Raster × String × String))) : ℕ :=
  results.countP (fun r => r.isSome)

/-- A trivial font model, usable to instantiate the external font
collaborator in concrete runs. -/
def trivialFont : FontModel := ⟨fun _ => 0, fun _ => 0, fun _ _ _ _ _ => false⟩

/-- The identity filter model (PIL filters preserve pixels only up to
convolution, but always preserve dimensions, which is all the pipeline
relies on). -/
def idFilter : String → Raster → Raster := fun _ img => img

/-- Stated from the spec wording of the caption rule: the first three
whitespace-separated words (all of them when fewer than three exist),
joined with single spaces and upper-cased. -/
def specCaption (p : String) : String :=
  pyUpper (pyJoin " " ((pyWords p).take (min 3 (pyWords p).length)))

/-- The largest value in an association list of scores. -/
def maxVal {α : Type} (l : List (α × ℕ)) : ℕ := (l.map Prod.snd).foldr max 0

/-- The maximal keyword score of a prompt across the catalog. -/
def maxScore (p : String) : ℕ := maxVal (themeScores p)

/-- Stated from the spec wording of theme detection: the first theme in
catalog iteration order whose score attains the maximal count. -/
def specDetect (p : String) : Option String :=
  ((themeScores p).find? (fun x => maxScore p ≤ x.2)).map Prod.fst

/-- An overlay that consists of one visible shape: some non-empty
masked region filled with a color drawn from the given pool at an
alpha in `[50, 150]`. -/
def isShapeOverlay (colors : List String) (ov : Overlay) : Prop :=
  ∃ (mask : ℕ → ℕ → Bool) (c : String) (rgb : Pix) (a : ℕ),
    c ∈ colors ∧ hexToRGB c = some rgb ∧ 50 ≤ a ∧ a ≤ 150 ∧
    (∃ x y, mask x y = true) ∧ ov = maskOverlay mask rgb a


/-! ## Arithmetic of the color blend -/

lemma pyint_intCast (a : ℤ) : pyint ((a : ℤ) : ℚ) = a := by
  unfold pyint
  split
  · rw [← Int.cast_neg, Int.floor_intCast, neg_neg]
  · exact Int.floor_intCast a

lemma blendChan_zero (a b : ℤ) : blendChan a b 0 = a := by
  have h : (a : ℚ) + ((b : ℚ) - (a : ℚ)) * 0 = ((a : ℤ) : ℚ) := by ring
  rw [blendChan, h, pyint_intCast]

lemma blendChan_one (a b : ℤ) : blendChan a b 1 = b := by
  have h : (a : ℚ) + ((b : ℚ) - (a : ℚ)) * 1 = ((b : ℤ) : ℚ) := by ring
  rw [blendChan, h, pyint_intCast]

lemma blendRGB_zero (t1 t2 : Pix) : blendRGB t1 t2 0 = t1 := by
  obtain ⟨a, b, c⟩ := t1
  simp [blendRGB, blendChan_zero]

lemma blendRGB_one (t1 t2 : Pix) : blendRGB t1 t2 1 = t2 := by
  obtain ⟨a, b, c⟩ := t2
  simp [blendRGB, blendChan_one]

lemma blendChan_between {a b : ℤ} (ha : 0 ≤ a) (hb : 0 ≤ b) {q : ℚ}
    (hq0 : 0 ≤ q) (hq1 : q ≤ 1) :
    min a b ≤ blendChan a b q ∧ blendChan a b q ≤ max a b := by
  have hab2 : ((min a b : ℤ) : ℚ) ≤ (a : ℚ) + ((b : ℚ) - (a : ℚ)) * q := by
    rcases le_total a b with h | h
    · have h1 : (0 : ℚ) ≤ ((b : ℚ) - (a : ℚ)) * q :=
        mul_nonneg (by exact_mod_cast sub_nonneg.2 h) hq0
      have h2 : ((min a b : ℤ) : ℚ) = (a : ℚ) := by rw [min_eq_left h]
      linarith
    · have h1 : (0 : ℚ) ≤ ((a : ℚ) - (b : ℚ)) * (1 - q) :=
        mul_nonneg (by exact_mod_cast sub_nonneg.2 h) (sub_nonneg.2 hq1)
      have h2 : ((min a b : ℤ) : ℚ) = (b : ℚ) := by rw [min_eq_right h]
      nlinarith
  have hab3 : (a : ℚ) + ((b : ℚ) - (a : ℚ)) * q ≤ ((max a b : ℤ) : ℚ) := by
    rcases le_total a b with h | h
    · have h1 : (0 : ℚ) ≤ ((b : ℚ) - (a : ℚ)) * (1 - q) :=
        mul_nonneg (by exact_mod_cast sub_nonneg.2 h) (sub_nonneg.2 hq1)
      have h2 : ((max a b : ℤ) : ℚ) = (b : ℚ) := by rw [max_eq_right h]
      nlinarith
    · have h1 : (0 : ℚ) ≤ ((a : ℚ) - (b : ℚ)) * q :=
        mul_nonneg (by exact_mod_cast sub_nonneg.2 h) hq0
      have h2 : ((max a b : ℤ) : ℚ) = (a : ℚ) := by rw [max_eq_left h]
      linarith
  have h0 : (0 : ℚ) ≤ (a : ℚ) + ((b : ℚ) - (a : ℚ)) * q := by
    have hm : (0 : ℤ) ≤ min a b := le_min ha hb
    have hm2 : (0 : ℚ) ≤ ((min a b : ℤ) : ℚ) := by exact_mod_cast hm
    linarith
  have hpy : blendChan a b q = ⌊(a : ℚ) + ((b : ℚ) - (a : ℚ)) * q⌋ := by
    rw [blendChan, pyint, if_neg (not_lt.2 h0)]
  constructor
  · calc min a b = ⌊((min a b : ℤ) : ℚ)⌋ := (Int.floor_intCast _).symm
      _ ≤ ⌊(a : ℚ) + ((b : ℚ) - (a : ℚ)) * q⌋ := Int.floor_le_floor hab2
      _ = blendChan a b q := hpy.symm
  · calc blendChan a b q = ⌊(a : ℚ) + ((b : ℚ) - (a : ℚ)) * q⌋ := hpy
      _ ≤ ⌊((max a b : ℤ) : ℚ)⌋ := Int.floor_le_floor hab3
      _ = max a b := Int.floor_intCast _

lemma hexToRGB_nonneg {s : String} {t : Pix} (h : hexToRGB s = some t) :
    0 ≤ t.1 ∧ 0 ≤ t.2.1 ∧ 0 ≤ t.2.2 := by
  simp only [hexToRGB, Option.bind_eq_some, Option.pure_def, Option.some_inj, bind,
    Option.bind_eq_some] at h
  obtain ⟨r, hr, g, hg, b, hb, rfl⟩ := h
  exact ⟨Int.natCast_nonneg r, Int.natCast_nonneg g, Int.natCast_nonneg b⟩

/-- C2: for every pair of valid six-digit hex colors and ratio in
[0, 1], `blend_colors` at ratio 0 returns exactly the first color
triple, at ratio 1 exactly the second, and at any ratio every channel
of the result lies between the corresponding input channels. -/
theorem claim_C2 (c1 c2 : String) (t1 t2 : Pix)
    (h1 : hexToRGB c1 = some t1) (h2 : hexToRGB c2 = some t2)
    (q : ℚ) (hq0 : 0 ≤ q) (hq1 : q ≤ 1) :
    blend_colors c1 c2 0 = some t1 ∧ blend_colors c1 c2 1 = some t2 ∧
      ∃ p : Pix, blend_colors c1 c2 q = some p ∧
        min t1.1 t2.1 ≤ p.1 ∧ p.1 ≤ max t1.1 t2.1 ∧
        min t1.2.1 t2.2.1 ≤ p.2.1 ∧ p.2.1 ≤ max t1.2.1 t2.2.1 ∧
        min t1.2.2 t2.2.2 ≤ p.2.2 ∧ p.2.2 ≤ max t1.2.2 t2.2.2 := by
  obtain ⟨ha1, ha2, ha3⟩ := hexToRGB_nonneg h1
  obtain ⟨hb1, hb2, hb3⟩ := hexToRGB_nonneg h2
  have hb : ∀ r : ℚ, blend_colors c1 c2 r = some (blendRGB t1 t2 r) := by
    intro r
    unfold blend_colors
    rw [h1, h2]
  refine ⟨by rw [hb 0, blendRGB_zero], by rw [hb 1, blendRGB_one],
    blendRGB t1 t2 q, hb q, ?_, ?_, ?_, ?_, ?_, ?_⟩
  · exact (blendChan_between ha1 hb1 hq0 hq1).1
  · exact (blendChan_between ha1 hb1 hq0 hq1).2
  · exact (blendChan_between ha2 hb2 hq0 hq1).1
  · exact (blendChan_between ha2 hb2 hq0 hq1).2
  · exact (blendChan_between ha3 hb3 hq0 hq1).1
  · exact (blendChan_between ha3 hb3 hq0 hq1).2

theorem claim_C2_witness :
    blend_colors "#006994" "#4682B4" 0 = some ((0, 105, 148) : Pix) ∧
    blend_colors "#006994" "#4682B4" 1 = some ((70, 130, 180) : Pix) ∧
      ∃ p : Pix, blend_colors "#006994" "#4682B4" 0 = some p ∧
        min (0 : ℤ) 70 ≤ p.1 ∧ p.1 ≤ max (0 : ℤ) 70 ∧
        min (105 : ℤ) 130 ≤ p.2.1 ∧ p.2.1 ≤ max (105 : ℤ) 130 ∧
        min (148 : ℤ) 180 ≤ p.2.2 ∧ p.2.2 ≤ max (148 : ℤ) 180 :=
  claim_C2 "#006994" "#4682B4" (0, 105, 148) (70, 130, 180) (by decide) (by decide) 0
    (le_refl 0) zero_le_one

/-! ## The empty-prompt early exit -/

/-- C4: for an empty or whitespace-only prompt, `generate_image`
returns the failure value `None` immediately; the random stream is
untouched, so no theme detection, style choice, rendering or file write
has happened. -/
theorem claim_C4 (fm : FontModel) (flt : String → Raster → Raster)
    (p : String) (w h : ℕ) (st : String) (g : Gen) (hp : pyStrip p = "") :
    generate_image fm flt p w h st g = (none, g) := by
  unfold generate_image
  rw [if_pos hp]

theorem claim_C4_witness :
    generate_image trivialFont idFilter "   " 800 600 "auto" ⟨fun _ => 0, 0⟩ =
      (none, ⟨fun _ => 0, 0⟩) :=
  claim_C4 trivialFont idFilter "   " 800 600 "auto" ⟨fun _ => 0, 0⟩ (by decide)

/-! ## The caption rule -/

lemma take_min_self {α : Type} (l : List α) (n : ℕ) :
    l.take (min n l.length) = l.take n := by
  rw [List.take_eq_take]
  omega

/-- C8: the caption drawn (twice: shadow, then main text) by
`add_text_overlay` is `displayText`, which equals the first three
whitespace-separated words joined with single spaces and upper-cased;
prompts with fewer than three words use all their words; the prompt
"a b c d e" yields exactly "A B C". -/
theorem claim_C8 :
    (∀ fm img p g, ∃ ax ay : ℤ,
      (add_text_overlay fm img p g).1 =
        drawText fm (drawText fm img (ax + 3) (ay + 3) (displayText p) (0, 0, 0))
          ax ay (displayText p) (255, 255, 255)) ∧
    (∀ p, displayText p = specCaption p) ∧
    (∀ p, (pyWords p).length ≤ 3 →
      displayText p = pyUpper (pyJoin " " (pyWords p))) ∧
    displayText "a b c d e" = "A B C" := by
  refine ⟨fun fm img p g => ⟨_, _, rfl⟩, fun p => ?_, fun p hp => ?_, by decide⟩
  · rw [specCaption, displayText, take_min_self]
  · rw [displayText, List.take_of_length_le hp]

theorem claim_C8_witness :
    (pyWords "hi there").length ≤ 3 ∧
    displayText "hi there" = pyUpper (pyJoin " " (pyWords "hi there")) :=
  ⟨by decide, claim_C8.2.2.1 "hi there" (by decide)⟩

/-! ## Raster dimensions and alpha compositing -/

lemma compositeChan_zero_alpha (d s : ℤ) : compositeChan d s 0 = d := by
  unfold compositeChan
  omega

lemma compositeOver_transparent (img : Raster) (x y : ℕ) :
    (compositeOver img transparentOverlay).pix x y = img.pix x y := by
  have h : ∀ d : ℤ, compositeChan d 0 0 = d := fun d => compositeChan_zero_alpha d 0
  show (compositeChan (img.pix x y).1 0 0, compositeChan (img.pix x y).2.1 0 0,
    compositeChan (img.pix x y).2.2 0 0) = img.pix x y
  rw [h, h, h]

lemma foldl_dims {β : Type} (f : Raster → β → Raster)
    (hf : ∀ im b, (f im b).width = im.width ∧ (f im b).height = im.height) :
    ∀ (l : List β) (im : Raster),
      (l.foldl f im).width = im.width ∧ (l.foldl f im).height = im.height
  | [], _ => ⟨rfl, rfl⟩
  | b :: l, im => by
    have h1 := foldl_dims f hf l (f im b)
    have h2 := hf im b
    simp only [List.foldl_cons]
    exact ⟨h1.1.trans h2.1, h1.2.trans h2.2⟩


lemma foldl_dims_to {β : Type} (f : Raster → β → Raster)
    (hf : ∀ im b, (f im b).width = im.width ∧ (f im b).height = im.height)
    (l : List β) (im : Raster) (W H : ℕ) (hW : im.width = W) (hH : im.height = H) :
    (l.foldl f im).width = W ∧ (l.foldl f im).height = H := by
  have h := foldl_dims f hf l im
  exact ⟨h.1.trans hW, h.2.trans hH⟩

lemma horizontalRaster_dims (w h : ℕ) (t0 t1 : Pix) :
    (horizontalRaster w h t0 t1).width = w ∧ (horizontalRaster w h t0 t1).height = h := by
  unfold horizontalRaster
  apply foldl_dims_to
  · exact fun _ _ => ⟨rfl, rfl⟩
  · rfl
  · rfl

lemma verticalRaster_dims (w h : ℕ) (t0 t1 : Pix) :
    (verticalRaster w h t0 t1).width = w ∧ (verticalRaster w h t0 t1).height = h := by
  unfold verticalRaster
  apply foldl_dims_to
  · exact fun _ _ => ⟨rfl, rfl⟩
  · rfl
  · rfl

lemma diagonalRaster_dims (w h : ℕ) (t0 t1 : Pix) :
    (diagonalRaster w h t0 t1).width = w ∧ (diagonalRaster w h t0 t1).height = h := by
  unfold diagonalRaster
  apply foldl_dims_to
  · intro im b
    apply foldl_dims
    exact fun _ _ => ⟨rfl, rfl⟩
  · rfl
  · rfl

lemma radialRaster_dims (w h : ℕ) (t0 t1 : Pix) :
    (radialRaster w h t0 t1).width = w ∧ (radialRaster w h t0 t1).height = h := by
  unfold radialRaster
  apply foldl_dims_to
  · intro im b
    apply foldl_dims
    exact fun _ _ => ⟨rfl, rfl⟩
  · rfl
  · rfl

lemma gradient_dims {w h : ℕ} {c0 c1 : String} {g : Gen} {r : Raster}
    (hr : (generate_gradient_background w h c0 c1 g).1 = some r) :
    r.width = w ∧ r.height = h := by
  unfold generate_gradient_background at hr
  cases h0 : hexToRGB c0 with
  | none => rw [h0] at hr; simp at hr
  | some t0 =>
    cases h1 : hexToRGB c1 with
    | none => rw [h0, h1] at hr; simp at hr
    | some t1 =>
      rw [h0, h1] at hr
      simp only at hr
      split_ifs at hr with hk1 hk2 hk3 hk4
      · obtain rfl : horizontalRaster w h t0 t1 = r := Option.some_injective _ hr
        exact horizontalRaster_dims w h t0 t1
      · obtain rfl : verticalRaster w h t0 t1 = r := Option.some_injective _ hr
        exact verticalRaster_dims w h t0 t1
      · obtain rfl : diagonalRaster w h t0 t1 = r := Option.some_injective _ hr
        exact diagonalRaster_dims w h t0 t1
      · obtain rfl : radialRaster w h t0 t1 = r := Option.some_injective _ hr
        exact radialRaster_dims w h t0 t1

lemma gpLoop_dims (kind : String) (colors : List String) (w h : ℕ) :
    ∀ (n : ℕ) (img : Raster) (g : Gen) (r : Raster),
      (gpLoop kind colors w h n img g).1 = some r →
      r.width = img.width ∧ r.height = img.height := by
  intro n
  induction n with
  | zero =>
    intro img g r hr
    obtain rfl : img = r := Option.some_injective _ hr
    exact ⟨rfl, rfl⟩
  | succ n ih =>
    intro img g r hr
    unfold gpLoop at hr
    rcases hit : gpIteration kind colors w h g with ⟨o, g2⟩
    rw [hit] at hr
    cases o with
    | none => simp at hr
    | some ov => exact ih (compositeOver img ov) g2 r hr

lemma add_geometric_dims {img : Raster} {colors : List String} {g : Gen} {r : Raster}
    (hr : (add_geometric_patterns img colors g).1 = some r) :
    r.width = img.width ∧ r.height = img.height := by
  unfold add_geometric_patterns at hr
  exact gpLoop_dims _ _ _ _ _ _ _ _ hr

lemma caIteration_dims {colors : List String} {w h : ℕ} {g : Gen}
    {f : Raster → Raster} {g' : Gen} (hf : caIteration colors w h g = (some f, g')) :
    ∀ im : Raster, (f im).width = im.width ∧ (f im).height = im.height := by
  simp only [caIteration] at hf
  rcases hco : pyChoiceOpt colors (pyChoice abstractShapes g).2 with ⟨co, g2⟩
  rw [hco] at hf
  cases co with
  | none => simp at hf
  | some c =>
    simp only at hf
    cases hp : hexToRGB c with
    | none => rw [hp] at hf; simp at hf
    | some rgb =>
      rw [hp] at hf
      simp only at hf
      split_ifs at hf
      all_goals
        obtain rfl := Option.some_injective _ (congrArg Prod.fst hf)
      all_goals exact fun im => ⟨rfl, rfl⟩

lemma caLoop_dims (colors : List String) (w h : ℕ) :
    ∀ (n : ℕ) (img : Raster) (g : Gen) (r : Raster),
      (caLoop colors w h n img g).1 = some r →
      r.width = img.width ∧ r.height = img.height := by
  intro n
  induction n with
  | zero =>
    intro img g r hr
    obtain rfl : img = r := Option.some_injective _ hr
    exact ⟨rfl, rfl⟩
  | succ n ih =>
    intro img g r hr
    unfold caLoop at hr
    rcases hit : caIteration colors w h g with ⟨o, g2⟩
    rw [hit] at hr
    cases o with
    | none => simp at hr
    | some f =>
      have hd := caIteration_dims hit img
      have hrest := ih (f img) g2 r hr
      exact ⟨hrest.1.trans hd.1, hrest.2.trans hd.2⟩

lemma create_abstract_dims {w h : ℕ} {colors : List String} {g : Gen} {r : Raster}
    (hr : (create_abstract_art w h colors g).1 = some r) :
    r.width = w ∧ r.height = h := by
  unfold create_abstract_art at hr
  exact caLoop_dims _ _ _ _ _ _ _ hr

lemma baseImage_dims {st : String} {colors : List String} {w h : ℕ} {g : Gen} {r : Raster}
    (hr : (baseImage st colors w h g).1 = some r) : r.width = w ∧ r.height = h := by
  unfold baseImage at hr
  split_ifs at hr with h1 h2 h3
  · exact gradient_dims hr
  · exact create_abstract_dims hr
  · cases hp : hexToRGB (colors.getD 0 "") with
    | none => rw [hp] at hr; simp at hr
    | some c0 => rw [hp] at hr; exact add_geometric_dims hr

/-! ## The unimplemented pattern kinds draw nothing -/

lemma pyChoiceOpt_ne_nil {α : Type} {l : List α} (hl : l ≠ []) (g : Gen) :
    ∃ c, c ∈ l ∧ pyChoiceOpt l g = (some c, g.bump) := by
  have hlen : 0 < l.length := List.length_pos.2 hl
  have hidx : g.val % l.length < l.length := Nat.mod_lt _ hlen
  refine ⟨l.get ⟨g.val % l.length, hidx⟩, List.get_mem l _ _, ?_⟩
  unfold pyChoiceOpt
  rw [List.get?_eq_get hidx]

lemma gpIteration_unimplemented {kind : String}
    (hk : kind = "triangles" ∨ kind = "lines")
    {colors : List String} (hc : colors ≠ []) (w h : ℕ) (g : Gen) :
    ∃ g', gpIteration kind colors w h g = (some transparentOverlay, g') := by
  obtain ⟨c, hcm, hceq⟩ := pyChoiceOpt_ne_nil hc g
  rcases hk with rfl | rfl
  all_goals refine ⟨(pyRandint 50 150 g.bump).2, ?_⟩
  all_goals unfold gpIteration
  all_goals rw [hceq]
  all_goals rfl

lemma gpLoop_unimplemented {kind : String} (hk : kind = "triangles" ∨ kind = "lines")
    {colors : List String} (hc : colors ≠ []) (w h : ℕ) :
    ∀ (n : ℕ) (img : Raster) (g : Gen),
      ∃ r g2, gpLoop kind colors w h n img g = (some r, g2) ∧
        r.width = img.width ∧ r.height = img.height ∧
        ∀ x y, r.pix x y = img.pix x y := by
  intro n
  induction n with
  | zero => exact fun img g => ⟨img, g, rfl, rfl, rfl, fun _ _ => rfl⟩
  | succ n ih =>
    intro img g
    obtain ⟨g1, hit⟩ := gpIteration_unimplemented hk hc w h g
    obtain ⟨r, g2, hl, hw, hh, hp⟩ := ih (compositeOver img transparentOverlay) g1
    refine ⟨r, g2, ?_, hw, hh,
      fun x y => (hp x y).trans (compositeOver_transparent img x y)⟩
    unfold gpLoop
    rw [hit]
    exact hl

/-- C10: when `add_geometric_patterns` randomly selects the pattern
kind `triangles` or `lines`, no shape is drawn: every iteration
composites a fully transparent overlay, and the returned image is
pixel-for-pixel the input image.  A palette is non-empty by the data
model (every theme palette holds five colors, and the geometric branch
passes four of them). -/
theorem claim_C10 (img : Raster) (colors : List String) (g : Gen) (hc : colors ≠ [])
    (hk : (pyChoice patternKinds g).1 = "triangles" ∨
      (pyChoice patternKinds g).1 = "lines") :
    ∃ r, (add_geometric_patterns img colors g).1 = some r ∧
      r.width = img.width ∧ r.height = img.height ∧
      ∀ x y, r.pix x y = img.pix x y := by
  obtain ⟨r, g2, hl, hw, hh, hp⟩ :=
    gpLoop_unimplemented hk hc img.width img.height
      ((pyRandint 5 15 (pyChoice patternKinds g).2).1) img
      ((pyRandint 5 15 (pyChoice patternKinds g).2).2)
  refine ⟨r, ?_, hw, hh, hp⟩
  unfold add_geometric_patterns
  rw [hl]

theorem claim_C10_witness :
    ∃ r, (add_geometric_patterns (uniformRaster 2 2 (9, 9, 9)) ["#FF0000"]
        ⟨fun _ => 2, 0⟩).1 = some r ∧
      r.width = 2 ∧ r.height = 2 ∧ ∀ x y, r.pix x y = (9, 9, 9) :=
  claim_C10 (uniformRaster 2 2 (9, 9, 9)) ["#FF0000"] ⟨fun _ => 2, 0⟩ (by decide)
    (Or.inl (by decide))

/-! ## Dimensions of the generated raster -/

lemma generate_image_dims {fm : FontModel} {flt : String → Raster → Raster}
    (hflt : ∀ e img, (flt e img).width = img.width ∧ (flt e img).height = img.height)
    {p : String} {w h : ℕ} {st : String} {g : Gen} {out : Raster × String × String}
    (ho : (generate_image fm flt p w h st g).1 = some out) :
    out.1.width = w ∧ out.1.height = h := by
  unfold generate_image at ho
  by_cases hp : pyStrip p = ""
  · rw [if_pos hp] at ho
    simp at ho
  · rw [if_neg hp] at ho
    simp only at ho
    split at ho
    next heq => simp at ho
    next img g3 heq =>
      have hbd : img.width = w ∧ img.height = h :=
        baseImage_dims (by rw [heq])
      obtain rfl : _ = out := Option.some_injective _ ho
      exact ⟨(hflt _ _).1.trans hbd.1, (hflt _ _).2.trans hbd.2⟩

set_option maxRecDepth 100000 in
/-- C9: the raster produced by a successful `generate_image` run has
exactly the requested width and height; the text-overlay and effect
stages preserve dimensions (the PIL convolution filters of the effect
stage are assumed dimension-preserving, which PIL guarantees); the
spec instance 800 by 600 with style gradient evaluates to an 800 by 600
raster. -/
theorem claim_C9 (fm : FontModel) (flt : String → Raster → Raster)
    (hflt : ∀ e img, (flt e img).width = img.width ∧ (flt e img).height = img.height)
    (p : String) (w h : ℕ) (st : String) (g : Gen) :
    ((generate_image fm flt p w h st g).1.map (fun o => (o.1.width, o.1.height)) = none ∨
      (generate_image fm flt p w h st g).1.map (fun o => (o.1.width, o.1.height)) =
        some (w, h)) ∧
    (∀ img g2, (add_text_overlay fm img p g2).1.width = img.width ∧
      (add_text_overlay fm img p g2).1.height = img.height) ∧
    (∀ img g2, (apply_artistic_effects flt img g2).1.width = img.width ∧
      (apply_artistic_effects flt img g2).1.height = img.height) ∧
    (generate_image trivialFont idFilter "Ocean sunset" 800 600 "gradient"
        ⟨fun _ => 0, 0⟩).1.map (fun o => (o.1.width, o.1.height)) = some (800, 600) := by
  refine ⟨?_, fun img g2 => ⟨rfl, rfl⟩, fun img g2 => hflt _ img, by rfl⟩
  cases hres : (generate_image fm flt p w h st g).1 with
  | none => left; rfl
  | some out =>
    right
    obtain ⟨hw, hh⟩ := generate_image_dims hflt hres
    show some (out.1.width, out.1.height) = some (w, h)
    rw [hw, hh]

theorem claim_C9_witness :
    ((generate_image trivialFont idFilter "x" 2 3 "abstract" ⟨fun _ => 0, 0⟩).1.map
        (fun o => (o.1.width, o.1.height)) = none ∨
      (generate_image trivialFont idFilter "x" 2 3 "abstract" ⟨fun _ => 0, 0⟩).1.map
        (fun o => (o.1.width, o.1.height)) = some (2, 3)) ∧
    (∀ img g2, (add_text_overlay trivialFont img "x" g2).1.width = img.width ∧
      (add_text_overlay trivialFont img "x" g2).1.height = img.height) ∧
    (∀ img g2, (apply_artistic_effects idFilter img g2).1.width = img.width ∧
      (apply_artistic_effects idFilter img g2).1.height = img.height) ∧
    (generate_image trivialFont idFilter "Ocean sunset" 800 600 "gradient"
        ⟨fun _ => 0, 0⟩).1.map (fun o => (o.1.width, o.1.height)) = some (800, 600) :=
  claim_C9 trivialFont idFilter (fun _ _ => ⟨rfl, rfl⟩) "x" 2 3 "abstract"
    ⟨fun _ => 0, 0⟩

/-! ## Pixel contents of the gradient rasters -/

lemma foldl_vline_pix (f : ℕ → Pix) (l : List ℕ) (img : Raster) (a b : ℕ) :
    ((l.foldl (fun im x => drawVLine im x (f x)) img).pix a b) =
      if a ∈ l then f a else img.pix a b := by
  induction l generalizing img with
  | nil => simp
  | cons x xs ih =>
    simp only [List.foldl_cons]
    rw [ih]
    by_cases hx : a ∈ xs
    · rw [if_pos hx, if_pos (List.mem_cons.2 (Or.inr hx))]
    · by_cases hax : a = x
      · subst hax
        rw [if_neg hx, if_pos (List.mem_cons.2 (Or.inl rfl))]
        show (if a = a then f a else img.pix a b) = f a
        rw [if_pos rfl]
      · rw [if_neg hx]
        have hno : a ∉ x :: xs := by
          intro hmem
          rcases List.mem_cons.1 hmem with h1 | h1
          exacts [hax h1, hx h1]
        rw [if_neg hno]
        show (if a = x then f x else img.pix a b) = img.pix a b
        rw [if_neg hax]

lemma foldl_hline_pix (f : ℕ → Pix) (l : List ℕ) (img : Raster) (a b : ℕ) :
    ((l.foldl (fun im y => drawHLine im y (f y)) img).pix a b) =
      if b ∈ l then f b else img.pix a b := by
  induction l generalizing img with
  | nil => simp
  | cons y ys ih =>
    simp only [List.foldl_cons]
    rw [ih]
    by_cases hy : b ∈ ys
    · rw [if_pos hy, if_pos (List.mem_cons.2 (Or.inr hy))]
    · by_cases hby : b = y
      · subst hby
        rw [if_neg hy, if_pos (List.mem_cons.2 (Or.inl rfl))]
        show (if b = b then f b else img.pix a b) = f b
        rw [if_pos rfl]
      · rw [if_neg hy]
        have hno : b ∉ y :: ys := by
          intro hmem
          rcases List.mem_cons.1 hmem with h1 | h1
          exacts [hby h1, hy h1]
        rw [if_neg hno]
        show (if b = y then f y else img.pix a b) = img.pix a b
        rw [if_neg hby]

lemma foldl_point_row_pix (f : ℕ → ℕ → Pix) (y0 : ℕ) (l : List ℕ) (img : Raster)
    (a b : ℕ) :
    ((l.foldl (fun im x => drawPoint im x y0 (f x y0)) img).pix a b) =
      if a ∈ l ∧ b = y0 then f a y0 else img.pix a b := by
  induction l generalizing img with
  | nil => simp
  | cons x xs ih =>
    simp only [List.foldl_cons]
    rw [ih]
    by_cases hx : a ∈ xs ∧ b = y0
    · rw [if_pos hx, if_pos ⟨List.mem_cons.2 (Or.inr hx.1), hx.2⟩]
    · rw [if_neg hx]
      show (if a = x ∧ b = y0 then f x y0 else img.pix a b) = _
      by_cases hax : a = x ∧ b = y0
      · rw [if_pos hax, if_pos ⟨List.mem_cons.2 (Or.inl hax.1), hax.2⟩, hax.1]
      · rw [if_neg hax]
        have hno : ¬(a ∈ x :: xs ∧ b = y0) := by
          rintro ⟨hmem, hb⟩
          rcases List.mem_cons.1 hmem with h1 | h1
          · exact hax ⟨h1, hb⟩
          · exact hx ⟨h1, hb⟩
        rw [if_neg hno]

lemma foldl_point_grid_pix (f : ℕ → ℕ → Pix) (w : ℕ) (rows : List ℕ) (img : Raster)
    (a b : ℕ) :
    ((rows.foldl (fun im y => (List.range w).foldl
        (fun im2 x => drawPoint im2 x y (f x y)) im) img).pix a b) =
      if a < w ∧ b ∈ rows then f a b else img.pix a b := by
  induction rows generalizing img with
  | nil => simp
  | cons y ys ih =>
    simp only [List.foldl_cons]
    rw [ih, foldl_point_row_pix]
    by_cases h1 : a < w ∧ b ∈ ys
    · rw [if_pos h1, if_pos ⟨h1.1, List.mem_cons.2 (Or.inr h1.2)⟩]
    · rw [if_neg h1]
      by_cases h2 : a ∈ List.range w ∧ b = y
      · rw [if_pos h2]
        have hmem : a < w ∧ b ∈ y :: ys :=
          ⟨List.mem_range.1 h2.1, List.mem_cons.2 (Or.inl h2.2)⟩
        rw [if_pos hmem, h2.2]
      · rw [if_neg h2]
        have hno : ¬(a < w ∧ b ∈ y :: ys) := by
          rintro ⟨haw, hmem⟩
          rcases List.mem_cons.1 hmem with hb | hb
          · exact h2 ⟨List.mem_range.2 haw, hb⟩
          · exact h1 ⟨haw, hb⟩
        rw [if_neg hno]

lemma horizontalRaster_pix (w h : ℕ) (t0 t1 : Pix) {x y : ℕ} (hx : x < w) :
    (horizontalRaster w h t0 t1).pix x y = blendRGB t0 t1 ((x : ℚ) / (w : ℚ)) := by
  unfold horizontalRaster
  exact (foldl_vline_pix _ _ _ _ _).trans (if_pos (List.mem_range.2 hx))

lemma verticalRaster_pix (w h : ℕ) (t0 t1 : Pix) {x y : ℕ} (hy : y < h) :
    (verticalRaster w h t0 t1).pix x y = blendRGB t0 t1 ((y : ℚ) / (h : ℚ)) := by
  unfold verticalRaster
  exact (foldl_hline_pix _ _ _ _ _).trans (if_pos (List.mem_range.2 hy))

lemma diagonalRaster_pix (w h : ℕ) (t0 t1 : Pix) {x y : ℕ} (hx : x < w) (hy : y < h) :
    (diagonalRaster w h t0 t1).pix x y =
      blendRGB t0 t1 (((x : ℚ) + (y : ℚ)) / ((w : ℚ) + (h : ℚ))) := by
  unfold diagonalRaster
  exact (foldl_point_grid_pix _ _ _ _ _ _).trans
    (if_pos ⟨hx, List.mem_range.2 hy⟩)

lemma radialRaster_pix (w h : ℕ) (t0 t1 : Pix) {x y : ℕ} (hx : x < w) (hy : y < h) :
    (radialRaster w h t0 t1).pix x y = blendRGBR t0 t1 (radialRatio w h x y) := by
  unfold radialRaster
  exact (foldl_point_grid_pix _ _ _ _ _ _).trans
    (if_pos ⟨hx, List.mem_range.2 hy⟩)

/-- C3 (amended): every in-bounds pixel of the gradient raster is the
blend of the two palette colors at the ratio determined by the chosen
kind: `x / width` for horizontal, `y / height` for vertical,
`(x + y) / (width + height)` for diagonal, and the clamped
center-distance ratio for radial — except that when
`width // 2 = height // 2 = 0` (a 1 by 1 canvas) the radial kind
divides by a zero `max_distance` and produces no raster. -/
theorem claim_C3 (w h : ℕ) (c0 c1 : String) (t0 t1 : Pix)
    (h0 : hexToRGB c0 = some t0) (h1 : hexToRGB c1 = some t1)
    (g : Gen) (x y : ℕ) (hx : x < w) (hy : y < h) :
    (∀ q : ℚ, blend_colors c0 c1 q = some (blendRGB t0 t1 q)) ∧
    ((pyChoice gradientKinds g).1 = "horizontal" →
      ∃ r, (generate_gradient_background w h c0 c1 g).1 = some r ∧
        r.pix x y = blendRGB t0 t1 ((x : ℚ) / (w : ℚ))) ∧
    ((pyChoice gradientKinds g).1 = "vertical" →
      ∃ r, (generate_gradient_background w h c0 c1 g).1 = some r ∧
        r.pix x y = blendRGB t0 t1 ((y : ℚ) / (h : ℚ))) ∧
    ((pyChoice gradientKinds g).1 = "diagonal" →
      ∃ r, (generate_gradient_background w h c0 c1 g).1 = some r ∧
        r.pix x y = blendRGB t0 t1 (((x : ℚ) + (y : ℚ)) / ((w : ℚ) + (h : ℚ)))) ∧
    ((pyChoice gradientKinds g).1 = "radial" → ¬(w / 2 = 0 ∧ h / 2 = 0) →
      ∃ r, (generate_gradient_background w h c0 c1 g).1 = some r ∧
        r.pix x y = blendRGBR t0 t1 (radialRatio w h x y)) := by
  refine ⟨fun q => by unfold blend_colors; rw [h0, h1], fun hk => ?_, fun hk => ?_,
    fun hk => ?_, fun hk hg => ?_⟩
  all_goals unfold generate_gradient_background
  all_goals rw [h0, h1]
  all_goals simp only
  all_goals rw [hk]
  · exact ⟨horizontalRaster w h t0 t1, by rw [if_pos rfl],
      horizontalRaster_pix w h t0 t1 hx⟩
  · exact ⟨verticalRaster w h t0 t1,
      by rw [if_neg (by decide), if_pos rfl], verticalRaster_pix w h t0 t1 hy⟩
  · exact ⟨diagonalRaster w h t0 t1,
      by rw [if_neg (by decide), if_neg (by decide), if_pos rfl],
      diagonalRaster_pix w h t0 t1 hx hy⟩
  · exact ⟨radialRaster w h t0 t1,
      by rw [if_neg (by decide), if_neg (by decide), if_neg (by decide), if_neg hg],
      radialRaster_pix w h t0 t1 hx hy⟩

theorem claim_C3_witness :
    ∃ r, (generate_gradient_background 2 2 "#000000" "#FFFFFF" ⟨fun _ => 0, 0⟩).1 =
        some r ∧
      r.pix 0 0 = blendRGB (0, 0, 0) (255, 255, 255) ((0 : ℚ) / (2 : ℚ)) :=
  (claim_C3 2 2 "#000000" "#FFFFFF" (0, 0, 0) (255, 255, 255) (by decide) (by decide)
      ⟨fun _ => 0, 0⟩ 0 0 (by decide) (by decide)).2.1 (by decide)

/-- C3 counterexample: with a 1 by 1 canvas the radial kind has
`max_distance = 0`, the per-pixel ratio divides by zero, and no raster
is produced at all — the claimed pixel formula cannot hold for every
positive width and height. -/
theorem claim_C3_counterexample :
    (pyChoice gradientKinds ⟨fun _ => 3, 0⟩).1 = "radial" ∧
    (generate_gradient_background 1 1 "#000000" "#FFFFFF" ⟨fun _ => 3, 0⟩).1 = none :=
  ⟨by decide, by rfl⟩

/-! ## Theme detection: first maximal score wins -/

lemma foldl_step_mem {α : Type} :
    ∀ (xs : List (α × ℕ)) (b : α × ℕ), xs.foldl pyMaxStep b ∈ b :: xs
  | [], b => List.mem_cons.2 (Or.inl rfl)
  | y :: ys, b => by
    simp only [List.foldl_cons]
    have ih := foldl_step_mem ys (pyMaxStep b y)
    rcases List.mem_cons.1 ih with h1 | h1
    · rw [h1]
      unfold pyMaxStep
      split
      · exact List.mem_cons.2 (Or.inr (List.mem_cons.2 (Or.inl rfl)))
      · exact List.mem_cons.2 (Or.inl rfl)
    · exact List.mem_cons.2 (Or.inr (List.mem_cons.2 (Or.inr h1)))

lemma pyMax?_mem {α : Type} {l : List (α × ℕ)} {m : α × ℕ} (h : pyMax? l = some m) :
    m ∈ l := by
  cases l with
  | nil => simp [pyMax?] at h
  | cons x xs =>
    have hm : xs.foldl pyMaxStep x = m := Option.some_injective _ h
    rw [← hm]
    exact foldl_step_mem xs x

lemma pyMaxStep_left_le {α : Type} (b y : α × ℕ) : b.2 ≤ (pyMaxStep b y).2 := by
  unfold pyMaxStep
  split
  · omega
  · exact le_refl _

lemma pyMaxStep_right_le {α : Type} (b y : α × ℕ) : y.2 ≤ (pyMaxStep b y).2 := by
  unfold pyMaxStep
  split
  · exact le_refl _
  · omega

lemma foldl_step_le {α : Type} :
    ∀ (xs : List (α × ℕ)) (b : α × ℕ), ∀ z ∈ b :: xs, z.2 ≤ (xs.foldl pyMaxStep b).2
  | [], b, z, hz => by
    rcases List.mem_cons.1 hz with h1 | h1
    · rw [h1]
      exact le_refl _
    · simp at h1
  | y :: ys, b, z, hz => by
    simp only [List.foldl_cons]
    rcases List.mem_cons.1 hz with h1 | h1
    · rw [h1]
      exact (pyMaxStep_left_le b y).trans
        (foldl_step_le ys (pyMaxStep b y) _ (List.mem_cons.2 (Or.inl rfl)))
    · rcases List.mem_cons.1 h1 with h2 | h2
      · rw [h2]
        exact (pyMaxStep_right_le b y).trans
          (foldl_step_le ys (pyMaxStep b y) _ (List.mem_cons.2 (Or.inl rfl)))
      · exact foldl_step_le ys (pyMaxStep b y) z (List.mem_cons.2 (Or.inr h2))

lemma foldl_step_first {α : Type} :
    ∀ (xs : List (α × ℕ)) (b : α × ℕ),
      ∃ pre suf, b :: xs = pre ++ (xs.foldl pyMaxStep b) :: suf ∧
        ∀ z ∈ pre, z.2 < (xs.foldl pyMaxStep b).2
  | [], b => ⟨[], [], rfl, by simp⟩
  | y :: ys, b => by
    simp only [List.foldl_cons]
    by_cases hby : b.2 < y.2
    · have hstep : pyMaxStep b y = y := by unfold pyMaxStep; rw [if_pos hby]
      obtain ⟨pre, suf, heq, hlt⟩ := foldl_step_first ys (pyMaxStep b y)
      refine ⟨b :: pre, suf, ?_, ?_⟩
      · rw [List.cons_append, ← heq, hstep]
      · intro z hz
        rcases List.mem_cons.1 hz with h1 | h1
        · rw [h1]
          calc b.2 < y.2 := hby
            _ ≤ (ys.foldl pyMaxStep (pyMaxStep b y)).2 := by
              rw [hstep]
              exact foldl_step_le ys y y (List.mem_cons.2 (Or.inl rfl))
        · exact hlt z h1
    · have hstep : pyMaxStep b y = b := by unfold pyMaxStep; rw [if_neg hby]
      rw [hstep]
      obtain ⟨pre, suf, heq, hlt⟩ := foldl_step_first ys b
      cases pre with
      | nil =>
        simp only [List.nil_append] at heq
        refine ⟨[], y :: suf, ?_, by simp⟩
        rw [List.nil_append]
        have hb : b = ys.foldl pyMaxStep b := (List.cons.injEq _ _ _ _ ▸ heq).1
        rw [← hb]
        rw [← hb] at heq
        have hys : ys = suf := (List.cons.injEq _ _ _ _ ▸ heq).2
        rw [hys]
      | cons p pre2 =>
        simp only [List.cons_append] at heq
        have hp : p = b := ((List.cons.injEq _ _ _ _ ▸ heq).1).symm
        have hys : ys = pre2 ++ ys.foldl pyMaxStep b :: suf :=
          (List.cons.injEq _ _ _ _ ▸ heq).2
        refine ⟨b :: y :: pre2, suf, ?_, ?_⟩
        · rw [List.cons_append, List.cons_append, ← hys]
        · intro z hz
          have hbm : b.2 < (ys.foldl pyMaxStep b).2 := by
            apply hlt
            rw [← hp]
            exact List.mem_cons.2 (Or.inl rfl)
          rcases List.mem_cons.1 hz with h1 | h1
          · rw [h1]; exact hbm
          · rcases List.mem_cons.1 h1 with h2 | h2
            · rw [h2]
              calc y.2 ≤ b.2 := by omega
                _ < _ := hbm
            · exact hlt z (List.mem_cons.2 (Or.inr h2))

lemma le_maxVal {α : Type} {l : List (α × ℕ)} {z : α × ℕ} (hz : z ∈ l) :
    z.2 ≤ maxVal l := by
  induction l with
  | nil => simp at hz
  | cons x xs ih =>
    have hm : maxVal (x :: xs) = max x.2 (maxVal xs) := rfl
    rcases List.mem_cons.1 hz with h1 | h1
    · rw [h1, hm]; exact le_max_left _ _
    · rw [hm]; exact (ih h1).trans (le_max_right _ _)

lemma maxVal_le {α : Type} {l : List (α × ℕ)} {c : ℕ} (hc : ∀ z ∈ l, z.2 ≤ c) :
    maxVal l ≤ c := by
  induction l with
  | nil => exact Nat.zero_le c
  | cons x xs ih =>
    have hm : maxVal (x :: xs) = max x.2 (maxVal xs) := rfl
    rw [hm]
    exact max_le (hc x (List.mem_cons.2 (Or.inl rfl)))
      (ih fun z hz => hc z (List.mem_cons.2 (Or.inr hz)))

lemma maxVal_attained {α : Type} {l : List (α × ℕ)} (h : 0 < maxVal l) :
    ∃ x ∈ l, x.2 = maxVal l := by
  induction l with
  | nil => simp [maxVal] at h
  | cons x xs ih =>
    have hm : maxVal (x :: xs) = max x.2 (maxVal xs) := rfl
    rcases le_or_lt (maxVal xs) x.2 with h1 | h1
    · exact ⟨x, List.mem_cons.2 (Or.inl rfl), by rw [hm, max_eq_left h1]⟩
    · have hpos : 0 < maxVal xs := by
        rw [hm, max_eq_right (le_of_lt h1)] at h
        exact h
      obtain ⟨z, hz, hz2⟩ := ih hpos
      exact ⟨z, List.mem_cons.2 (Or.inr hz), by rw [hm, max_eq_right (le_of_lt h1), hz2]⟩

lemma find?_append_of_none {α : Type} (p : α → Bool) :
    ∀ (pre rest : List α), (∀ z ∈ pre, p z = false) →
      (pre ++ rest).find? p = rest.find? p
  | [], rest, _ => rfl
  | a :: pre, rest, h => by
    rw [List.cons_append, List.find?_cons_of_neg, find?_append_of_none p pre rest
      (fun z hz => h z (List.mem_cons.2 (Or.inr hz)))]
    rw [h a (List.mem_cons.2 (Or.inl rfl))]
    exact Bool.false_ne_true

lemma find?_first {α : Type} {l : List (α × ℕ)} {m : α × ℕ} (h : pyMax? l = some m) :
    l.find? (fun z => decide (maxVal l ≤ z.2)) = some m := by
  cases l with
  | nil => simp [pyMax?] at h
  | cons x xs =>
    have hm : xs.foldl pyMaxStep x = m := Option.some_injective _ h
    have hle : ∀ z ∈ x :: xs, z.2 ≤ m.2 := by
      rw [← hm]; exact foldl_step_le xs x
    obtain ⟨pre, suf, heq, hlt⟩ := foldl_step_first xs x
    rw [hm] at heq hlt
    have hmem : m ∈ x :: xs := by
      rw [heq]
      exact List.mem_append.2 (Or.inr (List.mem_cons.2 (Or.inl rfl)))
    have hmax : maxVal (x :: xs) = m.2 :=
      le_antisymm (maxVal_le hle) (le_maxVal hmem)
    rw [hmax, heq]
    rw [find?_append_of_none _ pre _ (fun z hz => by
      rw [decide_eq_false]
      exact not_le.2 (hlt z hz))]
    rw [List.find?_cons_of_pos]
    exact decide_eq_true (le_refl m.2)

lemma find?_filter_of_imp {α : Type} (p q : α → Bool)
    (himp : ∀ a, p a = true → q a = true) :
    ∀ l : List α, (l.filter q).find? p = l.find? p
  | [] => rfl
  | a :: l => by
    by_cases hq : q a = true
    · rw [List.filter_cons_of_pos hq]
      cases hp : p a with
      | true => rw [List.find?_cons_of_pos _ hp, List.find?_cons_of_pos _ hp]
      | false =>
        rw [List.find?_cons_of_neg _ (by rw [hp]; exact Bool.false_ne_true),
          List.find?_cons_of_neg _ (by rw [hp]; exact Bool.false_ne_true)]
        exact find?_filter_of_imp p q himp l
    · rw [List.filter_cons_of_neg hq]
      have hp : p a = false := by
        cases hpa : p a with
        | true => exact absurd (himp a hpa) hq
        | false => rfl
      rw [List.find?_cons_of_neg _ (by rw [hp]; exact Bool.false_ne_true)]
      exact find?_filter_of_imp p q himp l

/-- C7 (amended): for every prompt with at least one keyword match,
`detect_theme` returns exactly the first theme in catalog order whose
substring-match count attains the maximum; the random fallback only
runs when every count is zero. -/
theorem claim_C7 (p : String) (g : Gen) (hpos : 0 < maxScore p) :
    specDetect p = some ((detectTheme g p).1) := by
  obtain ⟨x, hxs, hx2⟩ := maxVal_attained (l := themeScores p) hpos
  have hxpos : (0 : ℕ) < x.2 := by rw [hx2]; exact hpos
  have hxl : x ∈ (themeScores p).filter (fun z => decide (0 < z.2)) :=
    List.mem_filter.2 ⟨hxs, decide_eq_true hxpos⟩
  cases hm : pyMax? ((themeScores p).filter (fun z => decide (0 < z.2))) with
  | none =>
    cases hl : (themeScores p).filter (fun z => decide (0 < z.2)) with
    | nil => rw [hl] at hxl; simp at hxl
    | cons a as => rw [hl] at hm; simp [pyMax?] at hm
  | some m =>
    have hdet : (detectTheme g p).1 = m.1 := by
      unfold detectTheme
      rw [hm]
    have hfl := find?_first hm
    have hml : maxVal ((themeScores p).filter (fun z => decide (0 < z.2))) =
        maxVal (themeScores p) := by
      refine le_antisymm (maxVal_le fun z hz => le_maxVal (List.mem_filter.1 hz).1) ?_
      rw [← hx2]
      exact le_maxVal hxl
    rw [hml] at hfl
    have hpos2 : 0 < maxVal (themeScores p) := hpos
    have hfs : (themeScores p).find? (fun z => decide (maxVal (themeScores p) ≤ z.2)) =
        some m := by
      rw [← find?_filter_of_imp _ _ (fun z hz => decide_eq_true
        (lt_of_lt_of_le hpos2 (of_decide_eq_true hz)))]
      exact hfl
    unfold specDetect
    show Option.map Prod.fst ((themeScores p).find?
      fun z => decide (maxVal (themeScores p) ≤ z.2)) = some ((detectTheme g p).1)
    rw [hfs, hdet]
    rfl

theorem claim_C7_witness :
    0 < maxScore "fire" ∧
    specDetect "fire" = some ((detectTheme ⟨fun _ => 7, 0⟩ "fire").1) :=
  ⟨by decide, claim_C7 "fire" ⟨fun _ => 7, 0⟩ (by decide)⟩

/-- C7 counterexample: on a prompt with zero keyword matches every
theme ties at count zero, the spec tie-break names the first catalog
theme (nature), but the code picks a random theme — here ocean. -/
theorem claim_C7_counterexample :
    (detectTheme ⟨fun _ => 1, 0⟩ "qqq").1 = "ocean" ∧
    specDetect "qqq" = some "nature" ∧
    ("ocean" : String) ≠ "nature" := by decide

/-- C1 (amended): if the lowercased prompt contains at least one
keyword of theme T as a substring and no keyword of any other theme as
a substring, then `detect_theme` returns exactly T. -/
theorem claim_C1 (T : String) (kws : List String) (p : String) (g : Gen)
    (hT : (T, kws) ∈ themeKeywords)
    (hk : ∃ kw ∈ kws, pySubstr kw (pyLower p) = true)
    (hno : ∀ z ∈ themeKeywords, z.1 ≠ T →
      ∀ kw ∈ z.2, pySubstr kw (pyLower p) = false) :
    (detectTheme g p).1 = T := by
  have hpos : ∀ z ∈ (themeScores p).filter (fun z => decide (0 < z.2)), z.1 = T := by
    intro z hz
    obtain ⟨hzs, hzpos⟩ := List.mem_filter.1 hz
    obtain ⟨tk, htk, rfl⟩ := List.mem_map.1 hzs
    by_contra hne
    have hz0 : tk.2.countP (fun kw => pySubstr kw (pyLower p)) = 0 := by
      apply List.countP_eq_zero.2
      intro kw hkw
      rw [hno tk htk hne kw hkw]
      exact Bool.false_ne_true
    have := of_decide_eq_true hzpos
    rw [hz0] at this
    exact absurd this (lt_irrefl 0)
  have hTmem : (T, kws.countP (fun kw => pySubstr kw (pyLower p))) ∈ themeScores p :=
    List.mem_map.2 ⟨(T, kws), hT, rfl⟩
  have hTpos : 0 < kws.countP (fun kw => pySubstr kw (pyLower p)) := by
    apply List.countP_pos_iff.2
    obtain ⟨kw, hkw, hsub⟩ := hk
    exact ⟨kw, hkw, hsub⟩
  have hTfil : (T, kws.countP (fun kw => pySubstr kw (pyLower p))) ∈
      (themeScores p).filter (fun z => decide (0 < z.2)) :=
    List.mem_filter.2 ⟨hTmem, decide_eq_true hTpos⟩
  unfold detectTheme
  cases hm : pyMax? ((themeScores p).filter (fun z => decide (0 < z.2))) with
  | none =>
    cases hl : (themeScores p).filter (fun z => decide (0 < z.2)) with
    | nil => rw [hl] at hTfil; simp at hTfil
    | cons a as => rw [hl] at hm; simp [pyMax?] at hm
  | some m => exact hpos m (pyMax?_mem hm)

theorem claim_C1_witness :
    ("space", ["space", "star", "galaxy", "cosmic", "universe", "nebula"]) ∈
        themeKeywords ∧
    (∃ kw ∈ ["space", "star", "galaxy", "cosmic", "universe", "nebula"],
      pySubstr kw (pyLower "galaxy nebula") = true) ∧
    (∀ z ∈ themeKeywords, z.1 ≠ "space" →
      ∀ kw ∈ z.2, pySubstr kw (pyLower "galaxy nebula") = false) ∧
    (detectTheme ⟨fun _ => 0, 0⟩ "galaxy nebula").1 = "space" :=
  ⟨by decide, by decide, by decide,
    claim_C1 "space" ["space", "star", "galaxy", "cosmic", "universe", "nebula"]
      "galaxy nebula" ⟨fun _ => 0, 0⟩ (by decide) (by decide) (by decide)⟩

/-- C1 counterexample: every word of the prompt "synthwave" is a
keyword of exactly one theme, retro, yet `detect_theme` returns ocean:
the keyword "wave" of ocean occurs inside "synthwave" as a substring,
the tie at one match each is broken toward the earlier catalog entry
ocean, and the prompt is deterministically misclassified. -/
theorem claim_C1_counterexample :
    (∀ w ∈ pyWords "synthwave", w ∈ keywordsOf "retro") ∧
    (∀ z ∈ themeKeywords, (∀ w ∈ pyWords "synthwave", w ∈ z.2) → z.1 = "retro") ∧
    (detectTheme ⟨fun _ => 0, 0⟩ "synthwave").1 = "ocean" ∧
    ("ocean" : String) ≠ "retro" := by decide

/-! ## The batch contract -/

lemma batch_length (fm : FontModel) (flt : String → Raster → Raster)
    (w h : ℕ) (st : String) :
    ∀ (ps : List String) (g : Gen),
      (batch_generate fm flt ps w h st g).1.length = ps.length
  | [], _ => rfl
  | p :: ps, g => by
    show ((generate_image fm flt p w h st g).1 ::
      (batch_generate fm flt ps w h st (generate_image fm flt p w h st g).2).1).length =
        ps.length + 1
    rw [List.length_cons, batch_length fm flt w h st ps]

lemma batch_get? (fm : FontModel) (flt : String → Raster → Raster)
    (w h : ℕ) (st : String) :
    ∀ (ps : List String) (g : Gen) (i : ℕ), i < ps.length →
      (batch_generate fm flt ps w h st g).1.get? i =
        some ((generate_image fm flt (ps.getD i "") w h st
          (batch_generate fm flt (ps.take i) w h st g).2).1)
  | [], _, i, hi => absurd hi (by simp)
  | p :: ps, g, 0, _ => rfl
  | p :: ps, g, i + 1, hi => by
    have ih := batch_get? fm flt w h st ps (generate_image fm flt p w h st g).2 i
      (by simpa using hi)
    show (batch_generate fm flt ps w h st (generate_image fm flt p w h st g).2).1.get? i =
      _
    rw [ih]
    rfl

/-- C6: `batch_generate` invokes the single-prompt pipeline once per
prompt in order (each run starting from the random state left by the
previous ones), collects exactly one result per prompt in the same
order, never aborts on a failed prompt, and reports a success tally out
of the total; on the spec example a failing middle prompt leaves the
other two successful with tally 2 of 3. -/
theorem claim_C6 (fm : FontModel) (flt : String → Raster → Raster)
    (ps : List String) (w h : ℕ) (st : String) (g : Gen) :
    (batch_generate fm flt ps w h st g).1.length = ps.length ∧
    (∀ i, i < ps.length →
      (batch_generate fm flt ps w h st g).1.get? i =
        some ((generate_image fm flt (ps.getD i "") w h st
          (batch_generate fm flt (ps.take i) w h st g).2).1)) ∧
    batchTally (batch_generate fm flt ps w h st g).1 ≤ ps.length ∧
    (∃ r1 r3, (batch_generate trivialFont idFilter
        ["blue ocean waves", "", "fire flames"] 3 2 "abstract" ⟨fun _ => 0, 0⟩).1 =
        [some r1, none, some r3] ∧
      batchTally (batch_generate trivialFont idFilter
        ["blue ocean waves", "", "fire flames"] 3 2 "abstract" ⟨fun _ => 0, 0⟩).1 = 2) := by
  refine ⟨batch_length fm flt w h st ps g, batch_get? fm flt w h st ps g, ?_, ?_⟩
  · calc batchTally (batch_generate fm flt ps w h st g).1
        ≤ (batch_generate fm flt ps w h st g).1.length := List.countP_le_length _
      _ = ps.length := batch_length fm flt w h st ps g
  · exact ⟨_, _, rfl, rfl⟩

theorem claim_C6_witness :
    (0 : ℕ) < (["tree", "star"] : List String).length ∧
    (batch_generate trivialFont idFilter ["tree", "star"] 2 2 "abstract"
        ⟨fun _ => 0, 0⟩).1.get? 0 =
      some ((generate_image trivialFont idFilter ((["tree", "star"] : List String).getD 0 "")
        2 2 "abstract"
        (batch_generate trivialFont idFilter ((["tree", "star"] : List String).take 0)
          2 2 "abstract" ⟨fun _ => 0, 0⟩).2).1) :=
  ⟨by decide, (claim_C6 trivialFont idFilter ["tree", "star"] 2 2 "abstract"
    ⟨fun _ => 0, 0⟩).2.1 0 (by decide)⟩

/-! ## The geometric overlay stage -/

lemma pyRandint_range {a b : ℕ} (hab : a ≤ b) (g : Gen) :
    a ≤ (pyRandint a b g).1 ∧ (pyRandint a b g).1 ≤ b := by
  unfold pyRandint
  have hm : g.val % (b + 1 - a) < b + 1 - a := Nat.mod_lt _ (by omega)
  constructor
  · exact Nat.le_add_right a _
  · simp only
    omega

lemma gpLoop_eq_trace (kind : String) (colors : List String) (w h : ℕ) :
    ∀ (n : ℕ) (img : Raster) (g : Gen),
      gpLoop kind colors w h n img g =
        (((gpTrace kind colors w h n g).1).map (fun ovs => ovs.foldl compositeOver img),
          (gpTrace kind colors w h n g).2)
  | 0, img, g => rfl
  | n + 1, img, g => by
    rcases hit : gpIteration kind colors w h g with ⟨o, g2⟩
    show (match gpIteration kind colors w h g with
      | (none, g) => (none, g)
      | (some ov, g) => gpLoop kind colors w h n (compositeOver img ov) g) = _
    rw [hit]
    cases o with
    | none =>
      simp only [gpTrace, hit]
      rfl
    | some ov =>
      have ih := gpLoop_eq_trace kind colors w h n (compositeOver img ov) g2
      show gpLoop kind colors w h n (compositeOver img ov) g2 = _
      rw [ih]
      rcases htr : gpTrace kind colors w h n g2 with ⟨tr, g3⟩
      simp only [gpTrace, hit, htr]
      cases tr with
      | none => rfl
      | some ovs => rfl

lemma gpTrace_unimplemented {kind : String}
    (hk : kind = "triangles" ∨ kind = "lines")
    {colors : List String} (hc : colors ≠ []) (w h : ℕ) :
    ∀ (n : ℕ) (g : Gen), ∃ g2,
      gpTrace kind colors w h n g = (some (List.replicate n transparentOverlay), g2) := by
  intro n
  induction n with
  | zero => exact fun g => ⟨g, rfl⟩
  | succ n ih =>
    intro g
    obtain ⟨g1, hit⟩ := gpIteration_unimplemented hk hc w h g
    obtain ⟨g2, htr⟩ := ih g1
    refine ⟨g2, ?_⟩
    show (match gpIteration kind colors w h g with
      | (none, g) => (none, g)
      | (some ov, g) =>
        match gpTrace kind colors w h n g with
        | (none, g) => (none, g)
        | (some ovs, g) => (some (ov :: ovs), g)) = _
    simp only [hit, htr]
    rfl

lemma circleOverlay_isShape {colors : List String} {c : String} {rgb : Pix}
    (hcm : c ∈ colors) (hrgb : hexToRGB c = some rgb) {a : ℕ}
    (ha1 : 50 ≤ a) (ha2 : a ≤ 150) (x0 y0 rad : ℕ) :
    isShapeOverlay colors (circleOverlay x0 y0 rad rgb a) := by
  refine ⟨circleMask x0 y0 rad, c, rgb, a, hcm, hrgb, ha1, ha2, ⟨x0, y0, ?_⟩, rfl⟩
  unfold circleMask
  rw [decide_eq_true_eq]
  simp only [sub_self]
  positivity

lemma rectOverlay_isShape {colors : List String} {c : String} {rgb : Pix}
    (hcm : c ∈ colors) (hrgb : hexToRGB c = some rgb) {a : ℕ}
    (ha1 : 50 ≤ a) (ha2 : a ≤ 150) (x1 y1 x2 y2 : ℕ) (hx : x1 ≤ x2) (hy : y1 ≤ y2) :
    isShapeOverlay colors (rectOverlay x1 y1 x2 y2 rgb a) := by
  refine ⟨fun x y => rectMask x1 y1 x2 y2 x y, c, rgb, a, hcm, hrgb, ha1, ha2,
    ⟨x1, y1, ?_⟩, rfl⟩
  unfold rectMask
  rw [decide_eq_true_eq]
  exact ⟨le_refl _, hx, le_refl _, hy⟩

lemma gpTrace_shapes {kind : String}
    (hk : kind = "circles" ∨ kind = "rectangles")
    {colors : List String} (hc : colors ≠ [])
    (hv : ∀ c ∈ colors, (hexToRGB c).isSome = true) (w h : ℕ) :
    ∀ (n : ℕ) (g : Gen), ∃ ovs g2,
      gpTrace kind colors w h n g = (some ovs, g2) ∧
      ovs.length = n ∧ ∀ ov ∈ ovs, isShapeOverlay colors ov := by
  intro n
  induction n with
  | zero => exact fun g => ⟨[], g, rfl, rfl, by simp⟩
  | succ n ih =>
    intro g
    obtain ⟨c, hcm, hceq⟩ := pyChoiceOpt_ne_nil hc g
    obtain ⟨rgb, hrgb⟩ := Option.isSome_iff_exists.1 (hv c hcm)
    have halpha := pyRandint_range (by omega : (50 : ℕ) ≤ 150) g.bump
    rcases hk with rfl | rfl
    · have hit : gpIteration "circles" colors w h g =
          (some (circleOverlay (pyRandint 0 w (pyRandint 50 150 g.bump).2).1
            (pyRandint 0 h (pyRandint 0 w (pyRandint 50 150 g.bump).2).2).1
            (pyRandint 20 100
              (pyRandint 0 h (pyRandint 0 w (pyRandint 50 150 g.bump).2).2).2).1
            rgb (pyRandint 50 150 g.bump).1),
          (pyRandint 20 100
            (pyRandint 0 h (pyRandint 0 w (pyRandint 50 150 g.bump).2).2).2).2) := by
        simp only [gpIteration, hceq]
        rw [if_pos trivial, hrgb]
      obtain ⟨ovs, g2, htr, hlen, hall⟩ :=
        ih (pyRandint 20 100
          (pyRandint 0 h (pyRandint 0 w (pyRandint 50 150 g.bump).2).2).2).2
      refine ⟨circleOverlay (pyRandint 0 w (pyRandint 50 150 g.bump).2).1
          (pyRandint 0 h (pyRandint 0 w (pyRandint 50 150 g.bump).2).2).1
          (pyRandint 20 100
            (pyRandint 0 h (pyRandint 0 w (pyRandint 50 150 g.bump).2).2).2).1
          rgb (pyRandint 50 150 g.bump).1 :: ovs, g2, ?_,
        by rw [List.length_cons, hlen], ?_⟩
      · show (match gpIteration "circles" colors w h g with
          | (none, g) => (none, g)
          | (some ov, g) =>
            match gpTrace "circles" colors w h n g with
            | (none, g) => (none, g)
            | (some ovs, g) => (some (ov :: ovs), g)) = _
        simp only [hit, htr]
      · intro o ho
        rcases List.mem_cons.1 ho with h1 | h1
        · rw [h1]
          exact circleOverlay_isShape hcm hrgb halpha.1 halpha.2 _ _ _
        · exact hall o h1
    · have hit : gpIteration "rectangles" colors w h g =
          (some (rectOverlay (pyRandint 0 (w / 2) (pyRandint 50 150 g.bump).2).1
            (pyRandint 0 (h / 2) (pyRandint 0 (w / 2) (pyRandint 50 150 g.bump).2).2).1
            (pyRandint (pyRandint 0 (w / 2) (pyRandint 50 150 g.bump).2).1 w
              (pyRandint 0 (h / 2)
                (pyRandint 0 (w / 2) (pyRandint 50 150 g.bump).2).2).2).1
            (pyRandint (pyRandint 0 (h / 2)
                (pyRandint 0 (w / 2) (pyRandint 50 150 g.bump).2).2).1 h
              (pyRandint (pyRandint 0 (w / 2) (pyRandint 50 150 g.bump).2).1 w
                (pyRandint 0 (h / 2)
                  (pyRandint 0 (w / 2) (pyRandint 50 150 g.bump).2).2).2).2).1
            rgb (pyRandint 50 150 g.bump).1),
          (pyRandint (pyRandint 0 (h / 2)
              (pyRandint 0 (w / 2) (pyRandint 50 150 g.bump).2).2).1 h
            (pyRandint (pyRandint 0 (w / 2) (pyRandint 50 150 g.bump).2).1 w
              (pyRandint 0 (h / 2)
                (pyRandint 0 (w / 2) (pyRandint 50 150 g.bump).2).2).2).2).2) := by
        simp only [gpIteration, hceq]
        rw [if_neg (by decide), if_pos trivial, hrgb]
      obtain ⟨ovs, g2, htr, hlen, hall⟩ :=
        ih (pyRandint (pyRandint 0 (h / 2)
            (pyRandint 0 (w / 2) (pyRandint 50 150 g.bump).2).2).1 h
          (pyRandint (pyRandint 0 (w / 2) (pyRandint 50 150 g.bump).2).1 w
            (pyRandint 0 (h / 2)
              (pyRandint 0 (w / 2) (pyRandint 50 150 g.bump).2).2).2).2).2
      refine ⟨rectOverlay (pyRandint 0 (w / 2) (pyRandint 50 150 g.bump).2).1
          (pyRandint 0 (h / 2) (pyRandint 0 (w / 2) (pyRandint 50 150 g.bump).2).2).1
          (pyRandint (pyRandint 0 (w / 2) (pyRandint 50 150 g.bump).2).1 w
            (pyRandint 0 (h / 2)
              (pyRandint 0 (w / 2) (pyRandint 50 150 g.bump).2).2).2).1
          (pyRandint (pyRandint 0 (h / 2)
              (pyRandint 0 (w / 2) (pyRandint 50 150 g.bump).2).2).1 h
            (pyRandint (pyRandint 0 (w / 2) (pyRandint 50 150 g.bump).2).1 w
              (pyRandint 0 (h / 2)
                (pyRandint 0 (w / 2) (pyRandint 50 150 g.bump).2).2).2).2).1
          rgb (pyRandint 50 150 g.bump).1 :: ovs, g2, ?_,
        by rw [List.length_cons, hlen], ?_⟩
      · show (match gpIteration "rectangles" colors w h g with
          | (none, g) => (none, g)
          | (some ov, g) =>
            match gpTrace "rectangles" colors w h n g with
            | (none, g) => (none, g)
            | (some ovs, g) => (some (ov :: ovs), g)) = _
        simp only [hit, htr]
      · intro o ho
        rcases List.mem_cons.1 ho with h1 | h1
        · rw [h1]
          exact rectOverlay_isShape hcm hrgb halpha.1 halpha.2 _ _ _ _
            (pyRandint_range (le_trans (pyRandint_range (Nat.zero_le _) _).2
              (Nat.div_le_self w 2)) _).1
            (pyRandint_range (le_trans (pyRandint_range (Nat.zero_le _) _).2
              (Nat.div_le_self h 2)) _).1
        · exact hall o h1

lemma pyChoice_mem {α : Type} [Inhabited α] {l : List α} (hl : l ≠ []) (g : Gen) :
    (pyChoice l g).1 ∈ l := by
  have hlen : 0 < l.length := List.length_pos.2 hl
  have hidx : g.val % l.length < l.length := Nat.mod_lt _ hlen
  show l.getD (g.val % l.length) default ∈ l
  rw [List.getD_eq_get?, List.get?_eq_get hidx, Option.getD_some]
  exact List.get_mem l _ _

lemma detectTheme_mem (g : Gen) (p : String) : (detectTheme g p).1 ∈ themeNames := by
  unfold detectTheme
  cases hm : pyMax? ((themeScores p).filter (fun z => decide (0 < z.2))) with
  | some m =>
    have hmem := pyMax?_mem hm
    have hin : m ∈ themeScores p := (List.mem_filter.1 hmem).1
    obtain ⟨tk, htk, heq⟩ := List.mem_map.1 hin
    show m.1 ∈ themeNames
    have h1 : m.1 = tk.1 := by rw [← heq]
    have h3 : themeKeywords.map Prod.fst = themeNames := by decide
    rw [h1, ← h3]
    exact List.mem_map.2 ⟨tk, htk, rfl⟩
  | none =>
    show (pyChoice themeNames g).1 ∈ themeNames
    exact pyChoice_mem (by decide) g

lemma palette_head_valid :
    ∀ t ∈ themeNames, (hexToRGB ((paletteOf t).getD 0 "")).isSome = true := by decide

lemma geometric_dispatch (fm : FontModel) (flt : String → Raster → Raster)
    (p : String) (w h : ℕ) (g : Gen) (hp : pyStrip p ≠ "") :
    ∃ bg, hexToRGB ((paletteOf (detectTheme g (pyStrip p)).1).getD 0 "") = some bg ∧
      generate_image fm flt p w h "geometric" g =
        (match add_geometric_patterns (uniformRaster w h bg)
            ((paletteOf (detectTheme g (pyStrip p)).1).drop 1)
            (detectTheme g (pyStrip p)).2 with
          | (none, g2) => (none, g2)
          | (some img, g2) =>
            (some ((apply_artistic_effects flt
                (add_text_overlay fm img (pyStrip p) g2).1
                (add_text_overlay fm img (pyStrip p) g2).2).1,
              (detectTheme g (pyStrip p)).1, "geometric"),
             (apply_artistic_effects flt
                (add_text_overlay fm img (pyStrip p) g2).1
                (add_text_overlay fm img (pyStrip p) g2).2).2)) := by
  obtain ⟨bg, hbg⟩ := Option.isSome_iff_exists.1
    (palette_head_valid _ (detectTheme_mem g (pyStrip p)))
  refine ⟨bg, hbg, ?_⟩
  unfold generate_image
  rw [if_neg hp]
  simp only
  rw [if_neg (by decide : ¬("geometric" : String) = "auto")]
  simp only
  have hbase : baseImage "geometric" (paletteOf (detectTheme g (pyStrip p)).1) w h
      (detectTheme g (pyStrip p)).2 =
      add_geometric_patterns (uniformRaster w h bg)
        ((paletteOf (detectTheme g (pyStrip p)).1).drop 1)
        (detectTheme g (pyStrip p)).2 := by
    unfold baseImage
    rw [if_neg (by decide), if_neg (by decide), if_pos rfl, hbg]
  rw [hbase]

/-- C5 (amended): with style geometric, `generate_image` builds a
width-by-height canvas uniformly filled with the detected theme's
`palette[0]` and hands it to `add_geometric_patterns` with the color
pool `palette[1:]`; the loop runs `num_shapes ∈ [5, 15]` times; when
the randomly chosen pattern kind is circles or rectangles the result
composites exactly `num_shapes` visible shape overlays whose colors
come only from the pool and whose alphas lie in [50, 150]; when the
kind is triangles or lines every composited overlay is fully
transparent and no shape is drawn. -/
theorem claim_C5 (fm : FontModel) (flt : String → Raster → Raster)
    (p : String) (w h : ℕ) (g : Gen) (hp : pyStrip p ≠ "")
    (img : Raster) (colors : List String) (g2 : Gen)
    (hc : colors ≠ []) (hv : ∀ c ∈ colors, (hexToRGB c).isSome = true) :
    (∃ bg, hexToRGB ((paletteOf (detectTheme g (pyStrip p)).1).getD 0 "") = some bg ∧
      generate_image fm flt p w h "geometric" g =
        (match add_geometric_patterns (uniformRaster w h bg)
            ((paletteOf (detectTheme g (pyStrip p)).1).drop 1)
            (detectTheme g (pyStrip p)).2 with
          | (none, g2) => (none, g2)
          | (some img, g2) =>
            (some ((apply_artistic_effects flt
                (add_text_overlay fm img (pyStrip p) g2).1
                (add_text_overlay fm img (pyStrip p) g2).2).1,
              (detectTheme g (pyStrip p)).1, "geometric"),
             (apply_artistic_effects flt
                (add_text_overlay fm img (pyStrip p) g2).1
                (add_text_overlay fm img (pyStrip p) g2).2).2))) ∧
    (5 ≤ (pyRandint 5 15 (pyChoice patternKinds g2).2).1 ∧
      (pyRandint 5 15 (pyChoice patternKinds g2).2).1 ≤ 15) ∧
    ((pyChoice patternKinds g2).1 = "circles" ∨
        (pyChoice patternKinds g2).1 = "rectangles" →
      ∃ (ovs : List Overlay) (g3 : Gen), add_geometric_patterns img colors g2 =
          (some (ovs.foldl compositeOver img), g3) ∧
        ovs.length = (pyRandint 5 15 (pyChoice patternKinds g2).2).1 ∧
        ∀ ov ∈ ovs, isShapeOverlay colors ov) ∧
    ((pyChoice patternKinds g2).1 = "triangles" ∨
        (pyChoice patternKinds g2).1 = "lines" →
      ∃ g3, add_geometric_patterns img colors g2 =
        (some ((List.replicate (pyRandint 5 15 (pyChoice patternKinds g2).2).1
          transparentOverlay).foldl compositeOver img), g3)) := by
  refine ⟨geometric_dispatch fm flt p w h g hp,
    pyRandint_range (by omega) _, fun hk => ?_, fun hk => ?_⟩
  · obtain ⟨ovs, g3, htr, hlen, hall⟩ := gpTrace_shapes hk hc hv img.width img.height
      (pyRandint 5 15 (pyChoice patternKinds g2).2).1
      (pyRandint 5 15 (pyChoice patternKinds g2).2).2
    refine ⟨ovs, g3, ?_, hlen, hall⟩
    unfold add_geometric_patterns
    rw [gpLoop_eq_trace, htr]
    rfl
  · obtain ⟨g3, htr⟩ := gpTrace_unimplemented hk hc img.width img.height
      (pyRandint 5 15 (pyChoice patternKinds g2).2).1
      (pyRandint 5 15 (pyChoice patternKinds g2).2).2
    refine ⟨g3, ?_⟩
    unfold add_geometric_patterns
    rw [gpLoop_eq_trace, htr]
    rfl

theorem claim_C5_witness :
    5 ≤ (pyRandint 5 15 (pyChoice patternKinds ⟨fun _ => 0, 0⟩).2).1 ∧
    (pyRandint 5 15 (pyChoice patternKinds ⟨fun _ => 0, 0⟩).2).1 ≤ 15 :=
  (claim_C5 trivialFont idFilter "tree" 2 2 ⟨fun _ => 0, 0⟩ (by decide)
    (uniformRaster 2 2 (0, 0, 0)) ["#32CD32"] ⟨fun _ => 0, 0⟩ (by decide)
    (by decide)).2.1

/-- C5 counterexample: a geometric run that randomly selects the
pattern kind `triangles` composites only fully transparent overlays
over the `palette[0]` background — none of them is a visible shape
colored from `palette[1:]` with alpha in [50, 150], so the run does not
overlay between 5 and 15 such shapes as claimed. -/
theorem claim_C5_counterexample :
    (pyChoice patternKinds ⟨fun k => if k = 0 then 2 else 0, 0⟩).1 = "triangles" ∧
    (pyRandint 5 15 (pyChoice patternKinds
      ⟨fun k => if k = 0 then 2 else 0, 0⟩).2).1 = 5 ∧
    (∃ g3, add_geometric_patterns (uniformRaster 4 4 (34, 139, 34))
        ["#32CD32", "#90EE90", "#006400", "#8FBC8F"]
        ⟨fun k => if k = 0 then 2 else 0, 0⟩ =
      (some ((List.replicate 5 transparentOverlay).foldl compositeOver
        (uniformRaster 4 4 (34, 139, 34))), g3)) ∧
    ¬ isShapeOverlay ["#32CD32", "#90EE90", "#006400", "#8FBC8F"] transparentOverlay := by
  refine ⟨by decide, by decide, ⟨_, rfl⟩, ?_⟩
  rintro ⟨mask, c, rgb, a, hcm, hrgb, ha1, ha2, ⟨mx, my, hm⟩, heq⟩
  have hpt := congrFun (congrFun heq mx) my
  unfold transparentOverlay maskOverlay at hpt
  rw [hm] at hpt
  have h4 : (0 : ℤ) = (a : ℤ) := congrArg (fun t : PixA => t.2.2.2) hpt
  have h5 : a = 0 := by exact_mod_cast h4.symm
  omega
